import Mathlib

set_option autoImplicit false

/-
Verification development for the flatui font manager core
(src/font_manager.cpp): glyph atlas cache revision protocol, text buffer
construction and deduplication, word enumeration, and line
alignment/justification.

Modelling conventions:
* machine integers are modelled as `Nat`/`Int` (the claims under study never
  depend on 32-bit wraparound; casts such as `static_cast<uint32_t>` are made
  explicit where they occur),
* `float` quantities (pen positions, scale factors) are modelled as `Rat`;
  the only float operations performed by the source on the modelled paths are
  additions and divisions by the fixed-point constant 64, which are exact,
* external collaborators (HarfBuzz shaping, FreeType rasterization, the glyph
  cache container `glyph_cache.h`, libunibreak) live outside this translation
  unit; they are modelled as oracles carried in a context structure,
* a few ghost counters (flush count, layout/shaping call count, warning
  count) are threaded through the state so that "exactly one flush",
  "no relayout" and "a warning is reported" become stateable; they influence
  no computation.
-/

namespace Flatui

/-- Line break classes produced by the break classifier (libunibreak):
LINEBREAK_MUSTBREAK, LINEBREAK_ALLOWBREAK, LINEBREAK_INSIDEACHAR and the
remaining class (LINEBREAK_NOBREAK). -/
inductive BreakClass where
  | mustBreak
  | allowBreak
  | insideChar
  | other
deriving DecidableEq

/-- Whether a break class terminates a word in `WordEnumerator::Advance`
(LINEBREAK_MUSTBREAK or LINEBREAK_ALLOWBREAK). -/
def BreakClass.isBreak : BreakClass → Bool
  | .mustBreak => true
  | .allowBreak => true
  | _ => false

/-- State of `WordEnumerator` (font_manager.cpp lines 55-133). -/
structure WordEnumerator where
  current_index : Nat
  current_length : Nat
  buffer : List BreakClass
  finished : Bool
  single_line : Bool
deriving DecidableEq

/-- The `WordEnumerator` constructor: zero offsets, not finished. -/
def WordEnumerator.init (buffer : List BreakClass) (single_line : Bool) :
    WordEnumerator :=
  { current_index := 0, current_length := 0, buffer := buffer,
    finished := false, single_line := single_line }

/-- Offset of the first break class in the list, or the list length when the
list holds no break class.  This is the scan loop of
`WordEnumerator::Advance` (lines 86-93) relative to the scan start. -/
def findBreakAux : List BreakClass → Nat
  | [] => 0
  | c :: rest => if c.isBreak then 0 else findBreakAux rest + 1

/-- `WordEnumerator::Advance` (lines 71-96).  Returns the C++ return value
together with the mutated enumerator. -/
def WordEnumerator.advance (w : WordEnumerator) : Bool × WordEnumerator :=
  if w.single_line = true ∧ w.finished = false then
    (true, { w with finished := true, current_length := w.buffer.length })
  else if w.buffer.length ≤ w.current_index + w.current_length ∨ w.finished = true then
    (false, { w with current_index := w.current_index + w.current_length })
  else
    (true, { w with
      current_index := w.current_index + w.current_length,
      current_length :=
        w.current_index + w.current_length
          + findBreakAux (w.buffer.drop (w.current_index + w.current_length))
          - (w.current_index + w.current_length) + 1 })

/-- `WordEnumerator::IsLastWord` (lines 99-101). -/
def WordEnumerator.isLastWord (w : WordEnumerator) : Bool :=
  decide (w.buffer.length ≤ w.current_index + w.current_length) || w.finished

/-- `WordEnumerator::CurrentWordMustBreak` (lines 116-122).  The vector read
`(*buffer_)[current_index_ + current_length_ - 1]` is modelled with `getD`;
`mustBreakReadIndex` below names the index the C++ code dereferences. -/
def WordEnumerator.currentWordMustBreak (w : WordEnumerator) : Bool :=
  if w.current_index + w.current_length = 0 then false
  else
    decide (w.buffer.getD (w.current_index + w.current_length - 1)
      BreakClass.other = BreakClass.mustBreak)

/-- The buffer index dereferenced by `CurrentWordMustBreak` once at least one
`Advance` was made. -/
def WordEnumerator.mustBreakReadIndex (w : WordEnumerator) : Nat :=
  w.current_index + w.current_length - 1

/-- Iterated `Advance`: `advanceIter w n` is the result of the `(n+1)`-th
call to `Advance` starting from `w`. -/
def WordEnumerator.advanceIter (w : WordEnumerator) : Nat → Bool × WordEnumerator
  | 0 => w.advance
  | n + 1 => (w.advance).2.advanceIter n

/-- Update the element at one position of a list, leaving the list unchanged
when the position is out of range.  Models in-place writes such as
`vertices_[k] = ...`. -/
def updAt {α : Type} (f : α → α) : Nat → List α → List α
  | _, [] => []
  | 0, x :: xs => f x :: xs
  | n + 1, x :: xs => x :: updAt f n xs

/-- `static_cast<int>`, i.e. the `mathfu::vec2i(vec2)` float-to-int
conversion: truncation toward zero. -/
def ratTrunc (q : Rat) : Int := Int.tdiv q.num (q.den : Int)

/-- Layout directions (`TextLayoutDirection` in the header). -/
inductive TextLayoutDirection where
  | ltr
  | rtl
  | ttb
deriving DecidableEq

/-- Base (non-justify) part of a text alignment. -/
inductive TextAlignmentBase where
  | left
  | center
  | right
deriving DecidableEq

/-- Modelled from the spec: the header's `TextAlignment` is a bitmask of a
base alignment plus the justify bit; `UpdateLine` decomposes it as
`align = alignment & ~kTextAlignmentJustify` and
`justify = alignment & kTextAlignmentJustify`. -/
structure TextAlignment where
  base : TextAlignmentBase
  justify : Bool
deriving DecidableEq

/-- Modelled from the spec: `FontBufferParameters` (header not in src/) keys
the deduplication map with the full layout request; accessors used by
font_manager.cpp: `get_font_size`, `get_size`, `get_caret_info_flag`,
`get_glyph_flags`, `get_text_alignment`, `get_ref_count_flag`,
`get_multi_line_setting`, `get_line_length`. -/
structure FontBufferParameters where
  font_id : Nat
  text_hash : Nat
  font_size : Int
  sizeX : Int
  sizeY : Int
  text_alignment : TextAlignment
  glyph_flags : Nat
  caret_info : Bool
  ref_count_flag : Bool
  multi_line : Bool
  line_length : Nat
deriving DecidableEq

/-- One vertex of a glyph quad (`FontVertex`: float position and float UV;
the unused z component is dropped). -/
structure FontVertex where
  posX : Rat
  posY : Rat
  uvX : Rat
  uvY : Rat
deriving DecidableEq

/-- The default used when reading vertex lists with `getD`. -/
def defaultVertex : FontVertex := { posX := 0, posY := 0, uvX := 0, uvY := 0 }

/-- A UV rectangle (`vec4` as returned by `GlyphCacheEntry::get_uv`). -/
structure UvRect where
  x : Rat
  y : Rat
  z : Rat
  w : Rat
deriving DecidableEq

/-- `FontMetrics` (header not in src/).  Modelled from the spec: construction
order `(base_line, internal_leading, ascender, descender, external_leading)`,
inferred from `FontMetrics initial_metrics(base_line, 0, base_line,
base_line - ysize, 0)` at line 273 and the accessors used by
`UpdateMetrics`. -/
structure FontMetrics where
  base_line : Int
  internal_leading : Int
  ascender : Int
  descender : Int
  external_leading : Int
deriving DecidableEq

/-- `FontMetrics::total()`: the vertical extent of the metrics envelope. -/
def FontMetrics.total (m : FontMetrics) : Int :=
  m.internal_leading + m.ascender - m.descender + m.external_leading

/-- A glyph cache entry (`GlyphCacheEntry` of glyph_cache.h, not in src/).
Modelled from the spec: offset, size, atlas position `(x, y, slice)`, the UV
rectangle, and the owning cache row (a handle used only for back-reference
bookkeeping). -/
structure GlyphCacheEntry where
  offsetX : Int
  offsetY : Int
  sizeX : Int
  sizeY : Int
  posX : Nat
  posY : Nat
  slice : Nat
  uv : UvRect
  row : Nat
deriving DecidableEq

/-- `FontBuffer` state: vertices, per-slice index lists, the atlas slices
used, the recorded code points, caret positions, word-boundary bookkeeping,
line-start markers, revision stamp, reference count, render pass tag, cache
row back-references, size and metrics.  `has_caret_info` models the
caret-buffer capacity reserved by the constructor, which
`HasCaretPositions()` reports. -/
structure FontBuffer where
  vertices : List FontVertex
  indices : List (List Nat)
  slices : List Nat
  code_points : List Nat
  caret_positions : List (Int × Int)
  word_boundary : List Nat
  word_boundary_caret : List Nat
  line_start_index : Nat
  line_start_caret_index : Nat
  revision : Nat
  ref_count : Nat
  pass : Int
  row_refs : List Nat
  sizeX : Int
  sizeY : Int
  metrics : FontMetrics
  has_caret_info : Bool
deriving DecidableEq

/-- The `FontBuffer(length, caret_info)` constructor: empty geometry. -/
def FontBuffer.mk0 (caret_info : Bool) : FontBuffer :=
  { vertices := [], indices := [], slices := [], code_points := [],
    caret_positions := [], word_boundary := [], word_boundary_caret := [],
    line_start_index := 0, line_start_caret_index := 0, revision := 0,
    ref_count := 0, pass := 0, row_refs := [], sizeX := 0, sizeY := 0,
    metrics := { base_line := 0, internal_leading := 0, ascender := 0,
                 descender := 0, external_leading := 0 },
    has_caret_info := caret_info }

/-- `FontBuffer::get_glyph_count()`: four vertices per glyph. -/
def FontBuffer.glyphCount (b : FontBuffer) : Nat := b.vertices.length / 4

/-- `FontBuffer::AddCodepoint`. -/
def FontBuffer.addCodepoint (b : FontBuffer) (cp : Nat) : FontBuffer :=
  { b with code_points := b.code_points ++ [cp] }

/-- `FontBuffer::AddCaretPosition(const vec2 &)` (lines 1093-1101): the float
position is rounded (truncated) to `vec2i` and appended. -/
def FontBuffer.addCaretPosition (b : FontBuffer) (pos : Rat × Rat) : FontBuffer :=
  { b with caret_positions :=
      b.caret_positions ++ [(ratTrunc pos.1, ratTrunc pos.2)] }

/-- `FontBuffer::AddWordBoundary` (lines 1103-1109): when justification is
requested, record the current code-point and caret counts. -/
def FontBuffer.addWordBoundary (b : FontBuffer) (params : FontBufferParameters) :
    FontBuffer :=
  if params.text_alignment.justify then
    { b with word_boundary := b.word_boundary ++ [b.code_points.length],
             word_boundary_caret := b.word_boundary_caret ++ [b.caret_positions.length] }
  else b

/-- `FontBuffer::AddVertices` (lines 1066-1084): append the four corner
vertices of a glyph quad. -/
def FontBuffer.addVertices (b : FontBuffer) (pos : Rat × Rat) (base_line : Int)
    (scale : Rat) (e : GlyphCacheEntry) : FontBuffer :=
  let rx : Rat := (ratTrunc pos.1 : Int)
  let ry : Rat := (ratTrunc pos.2 : Int)
  let sox : Rat := (e.offsetX : Rat) * scale
  let soy : Rat := (e.offsetY : Rat) * scale
  let ssx : Rat := (e.sizeX : Rat) * scale
  let ssy : Rat := (e.sizeY : Rat) * scale
  let sbl : Rat := (base_line : Rat) * scale
  let x : Rat := rx + sox
  let y : Rat := ry + sbl - soy
  { b with vertices := b.vertices ++
      [ { posX := x, posY := y, uvX := e.uv.x, uvY := e.uv.y },
        { posX := x, posY := y + ssy, uvX := e.uv.x, uvY := e.uv.w },
        { posX := x + ssx, posY := y, uvX := e.uv.z, uvY := e.uv.y },
        { posX := x + ssx, posY := y + ssy, uvX := e.uv.z, uvY := e.uv.w } ] }

/-- `FontBuffer::UpdateUV(int32_t index, const vec4 &uv)` (lines 1086-1091):
rewrite the four UV coordinates of glyph `index` in place; positions are not
touched. -/
def FontBuffer.updateUVAt (b : FontBuffer) (index : Nat) (uv : UvRect) : FontBuffer :=
  { b with vertices :=
      (updAt (fun v => { v with uvX := uv.z, uvY := uv.w }) (index * 4 + 3)
        (updAt (fun v => { v with uvX := uv.z, uvY := uv.y }) (index * 4 + 2)
          (updAt (fun v => { v with uvX := uv.x, uvY := uv.w }) (index * 4 + 1)
            (updAt (fun v => { v with uvX := uv.x, uvY := uv.y }) (index * 4)
              b.vertices)))) }

/-- `FontBuffer::ExpandGlyphBuffers`: grow the per-slice index-list vector to
`n` entries. -/
def FontBuffer.expandGlyphBuffers (b : FontBuffer) (n : Nat) : FontBuffer :=
  { b with indices := b.indices ++ List.replicate (n - b.indices.length) [] }

/-- Push the six indices of a glyph quad (`kIndices = {0,1,2,1,3,2}` offset
by `current_glyph_count * 4`, lines 413-421) onto slice list `slice_idx`. -/
def FontBuffer.pushGlyphIndices (b : FontBuffer) (slice_idx : Nat) (g : Nat) :
    FontBuffer :=
  { b with indices :=
      (updAt (fun l => l ++ [0 + g * 4, 1 + g * 4, 2 + g * 4,
                             1 + g * 4, 3 + g * 4, 2 + g * 4]) slice_idx b.indices) }

/-- The boundary-check-and-offset-bump at the head of both position loops of
`FontBuffer::UpdateLine` (lines 1152-1155 and 1168-1171): state is
`(boundary_index, offset)`.  The out-of-range boundary read
`word_boundary_[boundary_index]` is undefined behaviour in the source and is
modelled with `getD _ 0`; all theorems below keep the access in range. -/
def offsetStep (justify : Bool) (wb : List Nat) (change : Int) (idx : Nat)
    (s : Nat × Int) : Nat × Int :=
  if justify = true ∧ wb.getD s.1 0 ≤ idx then (s.1 + 1, s.2 + change) else s

/-- Shift the x position of a vertex by an integer offset
(`it->position_.data[0] += offset`). -/
def shiftX (o : Int) (v : FontVertex) : FontVertex :=
  { v with posX := v.posX + (o : Rat) }

/-- Shift the x position of a caret by an integer offset
(`caret_positions_[idx].x() += offset_caret`). -/
def shiftCaret (o : Int) (c : Int × Int) : Int × Int := (c.1 + o, c.2)

/-- Add `off` to the x position of the four vertices of glyph `idx`
(lines 1156-1160). -/
def applyGlyphOffset (idx : Nat) (off : Int) (vs : List FontVertex) :
    List FontVertex :=
  updAt (shiftX off) (idx * 4 + 3)
    (updAt (shiftX off) (idx * 4 + 2)
      (updAt (shiftX off) (idx * 4 + 1)
        (updAt (shiftX off) (idx * 4) vs)))

/-- The glyph-position loop of `FontBuffer::UpdateLine` (lines 1150-1161),
iterated over the glyph indices of the current line. -/
def vertexJustifyLoop (justify : Bool) (wb : List Nat) (change : Int) :
    List Nat → Nat × Int → List FontVertex → (Nat × Int) × List FontVertex
  | [], s, vs => (s, vs)
  | idx :: rest, s, vs =>
    let s2 := offsetStep justify wb change idx s
    vertexJustifyLoop justify wb change rest s2 (applyGlyphOffset idx s2.2 vs)

/-- The caret-position loop of `FontBuffer::UpdateLine` (lines 1163-1174). -/
def caretJustifyLoop (justify : Bool) (wb : List Nat) (change : Int) :
    List Nat → Nat × Int → List (Int × Int) → (Nat × Int) × List (Int × Int)
  | [], s, cs => (s, cs)
  | idx :: rest, s, cs =>
    let s2 := offsetStep justify wb change idx s
    caretJustifyLoop justify wb change rest s2 (updAt (shiftCaret s2.2) idx cs)

/-- `FontBuffer::UpdateLine` (lines 1111-1182).  The mixed signed/unsigned
division `(size.x() - line_width) / (word_boundary_.size() - 1)` is modelled
as `Int` division; the theorems below only use it with a non-negative
dividend, where the two agree. -/
def FontBuffer.updateLine (b : FontBuffer) (params : FontBufferParameters)
    (layout_direction : TextLayoutDirection) (line_width : Int)
    (last_line : Bool) : FontBuffer :=
  let align := params.text_alignment.base
  let justify0 := params.text_alignment.justify && !last_line
  let b1 :=
    if justify0 = true ∨ align ≠ TextAlignmentBase.left then
      let justify := justify0 && decide (1 < b.word_boundary.length)
      let boundary_offset_change : Int :=
        if justify = true then
          Int.tdiv (params.sizeX - line_width) ((b.word_boundary.length : Int) - 1)
        else 0
      let offset : Int :=
        if justify = true then 0
        else if align = TextAlignmentBase.center then
          Int.tdiv (params.sizeX - line_width) 2
        else params.sizeX - line_width
      let offset := if layout_direction = TextLayoutDirection.rtl then -offset else offset
      let boundary_offset_change :=
        if layout_direction = TextLayoutDirection.rtl then -boundary_offset_change
        else boundary_offset_change
      let offset_caret := offset
      let vres := vertexJustifyLoop justify b.word_boundary boundary_offset_change
        (List.range' b.line_start_index (b.code_points.length - b.line_start_index))
        (0, offset) b.vertices
      let b2 := { b with vertices := vres.2 }
      if b2.has_caret_info then
        let cres := caretJustifyLoop justify b.word_boundary_caret
          boundary_offset_change
          (List.range' b.line_start_caret_index
            (b.caret_positions.length - b.line_start_caret_index))
          (0, offset_caret) b2.caret_positions
        { b2 with caret_positions := cres.2 }
      else b2
    else b
  { b1 with
    line_start_index := b1.code_points.length,
    line_start_caret_index := b1.caret_positions.length,
    word_boundary := [],
    word_boundary_caret := [] }

/-- Count of word-boundary entries strictly below `t`; the boundary index the
justification loops have consumed once the glyph index reaches `t`. -/
def cntLt (wb : List Nat) (t : Nat) : Nat :=
  wb.countP (fun e => decide (e < t))

/-- Justification-request parameters with target width `sx` (left base
alignment plus the justify bit), used for concrete evaluations. -/
def paramsJustify (sx : Int) : FontBufferParameters :=
  { font_id := 0, text_hash := 0, font_size := 12, sizeX := sx, sizeY := 0,
    text_alignment := { base := TextAlignmentBase.left, justify := true },
    glyph_flags := 0, caret_info := false, ref_count_flag := false,
    multi_line := true, line_length := 0 }

/-- A concrete committed line of four glyphs with word boundaries after each
glyph (`word_boundary_ = [1,2,3,4]`), zeroed geometry, and two carets with
caret boundaries `[1,2]`. -/
def lineBuf4 : FontBuffer :=
  { FontBuffer.mk0 true with
    vertices := List.replicate 16 defaultVertex,
    code_points := [0, 0, 0, 0],
    caret_positions := [(0, 0), (0, 0)],
    word_boundary := [1, 2, 3, 4],
    word_boundary_caret := [1, 2] }

/-- A concrete committed line of one glyph with a single word boundary. -/
def lineBuf1 : FontBuffer :=
  { FontBuffer.mk0 false with
    vertices := List.replicate 4 defaultVertex,
    code_points := [0],
    word_boundary := [1] }

/-- `kInvalidSliceIndex` (line 51): invalid texture atlas index. -/
def kInvalidSliceIndex : Int := -1

/-- Modelled from the spec: the shaping engine's fixed-point unit-per-pixel
constant (`kFreeTypeUnit`, defined in the flatui common header; this core
divides advances by it). -/
def kFreeTypeUnit : Nat := 64

/-- Modelled from the spec: the terminal `Render` pass tag (`kRenderPass` in
the header), distinct from the layout passes `0, 1, ...`. -/
def kRenderPass : Int := -1

/-- `static_cast<uint32_t>` of a signed value. -/
def toU32 (n : Int) : Nat := (n % (2 : Int) ^ 32).toNat

/-- Modelled from the spec: the observable state of `GlyphCache`
(glyph_cache.h, not in src/): the monotonic revision counter, the dirty
flag, the eviction cycle counter and the slice count.  `Update()` advances
the cycle counter; `Flush()` evicts entries and bumps the revision. -/
structure GlyphCache where
  revision : Nat
  dirty : Bool
  counter : Nat
  num_slices : Nat
deriving DecidableEq

/-- `GlyphCache::Update()`: advance the cycle counter. -/
def GlyphCache.update (c : GlyphCache) : GlyphCache :=
  { c with counter := c.counter + 1 }

/-- `GlyphCache::Flush()`: modelled from the spec — forcibly evicts entries
to reclaim capacity and bumps the revision. -/
def GlyphCache.flush (c : GlyphCache) : GlyphCache :=
  { c with revision := c.revision + 1 }

/-- `GlyphKey` — `{font_id, code_point, pixel size, flags}`. -/
structure GlyphKey where
  font_id : Nat
  code_point : Nat
  ysize : Int
  flags : Nat
deriving DecidableEq

/-- One shaped glyph as returned by the HarfBuzz collaborator:
`{glyph id (codepoint), x/y advance in fixed-point units, cluster byte
offset}`. -/
structure ShapedGlyph where
  codepoint : Nat
  x_advance : Int
  y_advance : Int
  cluster : Nat
deriving DecidableEq

/-- The default used when reading shaped-glyph lists with `getD`. -/
def defaultShaped : ShapedGlyph :=
  { codepoint := 0, x_advance := 0, y_advance := 0, cluster := 0 }

/-- `FontManager` state: the deduplication map (`map_buffers_`, an
association list keyed by the full parameters), the atlas revision snapshot
(`current_atlas_revision_`), the render pass counter (`current_pass_`), the
glyph cache, and the layout direction.  The remaining fields are ghost
counters that track observable events (flushes, shaping calls, CreateBuffer
entries, configuration warnings, cache-row reference releases); they do not
influence any computation. -/
structure FontManagerState where
  map_buffers : List (FontBufferParameters × FontBuffer)
  current_atlas_revision : Nat
  current_pass : Int
  cache : GlyphCache
  layout_direction : TextLayoutDirection
  flush_count : Nat
  create_calls : Nat
  layout_calls : Nat
  warnings : Nat
  row_ref_releases : Nat
deriving DecidableEq

/-- The collaborators of one buffer construction, as oracles: the text
length, the break-class buffer computed by `set_linebreaks_utf8`, the
shaping oracle (`shape offset length` = the HarfBuzz glyph array for that
span), the combined `GetCachedEntry` oracle (cache find + FreeType
rasterization + cache insert, which may mutate the cache and may fail with
the cache-full/unsupported-glyph signal `none`), the FreeType glyph metrics
per code point, the font's base line and id, the optional size selector and
the line height factor (`line_height_`). -/
structure FmCtx where
  text_length : Nat
  breaks : List BreakClass
  shape : Nat → Nat → List ShapedGlyph
  fetch : GlyphKey → GlyphCache → Option GlyphCacheEntry × GlyphCache
  glyph_top : Nat → Int
  glyph_rows : Nat → Nat
  base_line : Int
  font_id : Nat
  size_selector : Option (Int → Int)
  line_height_factor : Rat

/-- `std::map::find` on the deduplication map. -/
def mlookup (k : FontBufferParameters) :
    List (FontBufferParameters × FontBuffer) → Option FontBuffer
  | [] => none
  | (p, v) :: rest => if p = k then some v else mlookup k rest

/-- In-place mutation of the mapped buffer (C++ mutates through the map
iterator). -/
def mupdate (k : FontBufferParameters) (v : FontBuffer) :
    List (FontBufferParameters × FontBuffer) →
    List (FontBufferParameters × FontBuffer)
  | [] => []
  | (p, w) :: rest =>
    if p = k then (p, v) :: rest else (p, w) :: mupdate k v rest

/-- `std::map::erase` on the deduplication map. -/
def merase (k : FontBufferParameters) :
    List (FontBufferParameters × FontBuffer) →
    List (FontBufferParameters × FontBuffer)
  | [] => []
  | (p, w) :: rest => if p = k then rest else (p, w) :: merase k rest

/-- `FontManager::UpdateMetrics` (lines 913-935): grow the metrics envelope
when a glyph's extent exceeds it. -/
def updateMetricsFn (top : Int) (rows : Nat) (cur : FontMetrics) :
    Option FontMetrics :=
  if cur.ascender < top ∨ top - (rows : Int) < cur.descender then
    some { cur with
      internal_leading := max cur.internal_leading (top - cur.ascender),
      external_leading := min cur.external_leading (top - (rows : Int) - cur.descender),
      base_line := max cur.internal_leading (top - cur.ascender) + cur.ascender }
  else none

/-- `FontManager::LayoutText` (lines 890-911): shape the span (via the
oracle) and return the summed x advances (a uint32 in the source; real
advances are non-negative, modelled with `toNat`). -/
def layoutWidth (gs : List ShapedGlyph) : Nat :=
  (List.sum (gs.map ShapedGlyph.x_advance)).toNat

/-- `FontManager::GetCaretPosCount` (lines 525-551): the number of
characters (non-INSIDEACHAR bytes) covered by glyph `index` of the shaped
run, computed from cluster offsets and the word-break buffer. -/
def getCaretPosCount (dir : TextLayoutDirection) (w : WordEnumerator)
    (gs : List ShapedGlyph) (glyph_count : Nat) (index : Nat) : Nat :=
  let byte_index := (gs.getD index defaultShaped).cluster
  let d : Int := if dir = TextLayoutDirection.ltr then 1 else -1
  let byte_size : Int :=
    if -d ≤ (index : Int) ∧ (index : Int) < (glyph_count : Int) - d then
      ((gs.getD ((index : Int) + d).toNat defaultShaped).cluster : Int)
        - (byte_index : Int)
    else (w.current_length : Int) - (byte_index : Int)
  (List.range byte_size.toNat).countP (fun i =>
    decide (w.buffer.getD (w.current_index + byte_index + i) BreakClass.other
      ≠ BreakClass.insideChar))

/-- The mutable state threaded through the word loop of
`FontManager::CreateBuffer`: the buffer under construction, the pen
position, the metrics envelope, the atlas-slice index table
(`atlas_indices_`, reset to `kInvalidSliceIndex` at entry), the glyph
cache, and the line bookkeeping (`line_width`, `max_line_width`,
`total_height`, `lastline_must_break`, `first_character`), plus the ghost
shaping-call counter. -/
structure LoopSt where
  buffer : FontBuffer
  pos : Rat × Rat
  metrics : FontMetrics
  atlas_indices : Nat → Int
  cache : GlyphCache
  line_width : Nat
  max_line_width : Nat
  total_height : Nat
  lastline_must_break : Bool
  first_character : Bool
  layout_calls : Nat

/-- The per-glyph body of the glyph loop of `CreateBuffer` (lines 366-465),
iterated over the ordinals `i` of the shaped run (the array index `idx`
runs backward for RTL).  Returns `false` when `GetCachedEntry` reports
cache-full, aborting the construction. -/
def emitGlyphs (ctx : FmCtx) (params : FontBufferParameters)
    (converted_ysize : Int) (scale : Rat) (base_line : Int)
    (dir : TextLayoutDirection) (lastline_must_break : Bool)
    (w : WordEnumerator) (gs : List ShapedGlyph) :
    List Nat → LoopSt → Bool × LoopSt
  | [], s => (true, s)
  | i :: rest, s =>
    let idx : Nat := if dir = TextLayoutDirection.rtl then gs.length - 1 - i else i
    let g := gs.getD idx defaultShaped
    if g.codepoint = 0 then
      emitGlyphs ctx params converted_ysize scale base_line dir
        lastline_must_break w gs rest s
    else
      match ctx.fetch ⟨ctx.font_id, g.codepoint, converted_ysize,
          params.glyph_flags⟩ s.cache with
      | (none, c2) => (false, { s with cache := c2 })
      | (some entry, c2) =>
        let s := { s with cache := c2 }
        let adv : Rat × Rat :=
          ((g.x_advance : Rat) * scale / (kFreeTypeUnit : Rat),
           (-(g.y_advance : Rat)) * scale / (kFreeTypeUnit : Rat))
        let s := if dir = TextLayoutDirection.rtl then
            { s with pos := (s.pos.1 - adv.1, s.pos.2 - adv.2) } else s
        let s :=
          if entry.sizeX ≠ 0 ∧ entry.sizeY ≠ 0 then
            let buf := s.buffer.addCodepoint g.codepoint
            let metrics := (updateMetricsFn (ctx.glyph_top g.codepoint)
              (ctx.glyph_rows g.codepoint) s.metrics).getD s.metrics
            let slice := entry.slice
            let si0 := s.atlas_indices slice
            let si : Nat :=
              if si0 = kInvalidSliceIndex then buf.slices.length else si0.toNat
            let ai2 : Nat → Int :=
              if si0 = kInvalidSliceIndex then
                (fun x => if x = slice then (si : Int) else s.atlas_indices x)
              else s.atlas_indices
            let buf :=
              if si0 = kInvalidSliceIndex then
                { (buf.expandGlyphBuffers (si + 1)) with
                  slices := buf.slices ++ [slice] }
              else buf
            let buf := buf.pushGlyphIndices si buf.glyphCount
            let buf := buf.addVertices s.pos base_line scale entry
            let buf := if params.ref_count_flag then
                { buf with row_refs := buf.row_refs ++ [entry.row] } else buf
            { s with buffer := buf, metrics := metrics, atlas_indices := ai2 }
          else s
        let s := if dir = TextLayoutDirection.ltr then
            { s with pos := (s.pos.1 + adv.1, s.pos.2 + adv.2) } else s
        let end_of_line := lastline_must_break = true ∧ i = gs.length - 1
        let s :=
          if params.caret_info = true ∧ ¬ end_of_line then
            let carets := getCaretPosCount dir w gs gs.length idx
            let scaled_offset := (entry.offsetX : Rat) * scale
            let sbl := (base_line : Rat) * scale
            let idx_adv : Int := if dir = TextLayoutDirection.rtl then -1 else 1
            let buf := (List.range carets).foldl
              (fun bacc c => bacc.addCaretPosition
                (s.pos.1 + (idx_adv : Rat) * (scaled_offset - adv.1
                    + (((c + 1 : Nat) : Rat) * adv.1) / (carets : Rat)),
                 s.pos.2 + sbl))
              s.buffer
            { s with buffer := buf }
          else s
        emitGlyphs ctx params converted_ysize scale base_line dir
          lastline_must_break w gs rest s

/-- Step 1 of one word-loop iteration of `CreateBuffer` (lines 295-346):
single-line layout of the whole string, or multi-line width accumulation
with line breaking and height truncation.  Returns `none` for the
truncation `break` (the word is not laid out), otherwise the shaped run of
the word. -/
def stepLine (ctx : FmCtx) (params : FontBufferParameters) (scale : Rat)
    (dir : TextLayoutDirection) (pos_start : Rat) (line_height : Rat)
    (w2 : WordEnumerator) (s : LoopSt) : Option (List ShapedGlyph) × LoopSt :=
  if params.multi_line = false then
    let gs := ctx.shape 0 ctx.text_length
    let mlw := (ratTrunc ((layoutWidth gs : Rat) * scale)).toNat
    let s := { s with max_line_width := mlw, layout_calls := s.layout_calls + 1 }
    let s := if dir = TextLayoutDirection.rtl ∧ params.sizeX = 0 then
        { s with pos := (((mlw / kFreeTypeUnit : Nat) : Rat), s.pos.2) } else s
    (some gs, s)
  else
    let gs := ctx.shape w2.current_index w2.current_length
    let word_width := (ratTrunc ((layoutWidth gs : Rat) * scale)).toNat
    let s := { s with layout_calls := s.layout_calls + 1 }
    if s.lastline_must_break = true ∨
        toU32 params.sizeX < (s.line_width + word_width) / kFreeTypeUnit then
      let s := { s with
        buffer := s.buffer.updateLine params dir
          ((s.line_width / kFreeTypeUnit : Nat) : Int) s.lastline_must_break }
      let s := { s with
        pos := (pos_start, s.pos.2 + line_height),
        total_height := s.total_height + (ratTrunc line_height).toNat,
        first_character := s.lastline_must_break }
      if params.sizeY ≠ 0 ∧ toU32 params.sizeY < s.total_height ∧
          params.caret_info = false then
        (none, s)
      else
        let s := { s with line_width := word_width }
        let s := { s with
          max_line_width := max s.max_line_width s.line_width,
          lastline_must_break := w2.currentWordMustBreak }
        (some gs, s)
    else
      let s := { s with line_width := s.line_width + word_width }
      let s := { s with
        max_line_width := max s.max_line_width s.line_width,
        lastline_must_break := w2.currentWordMustBreak }
      (some gs, s)

/-- The rest of one word-loop iteration (lines 348-474): the first caret,
the glyph loop, the word boundary record and the buffer revision stamp. -/
def wordBody (ctx : FmCtx) (params : FontBufferParameters)
    (converted_ysize : Int) (scale : Rat) (base_line : Int)
    (dir : TextLayoutDirection) (w2 : WordEnumerator)
    (gs : List ShapedGlyph) (s : LoopSt) : Bool × LoopSt :=
  let s := if params.caret_info = true ∧ s.first_character = true then
      { s with
        buffer := s.buffer.addCaretPosition
          (s.pos.1, s.pos.2 + (base_line : Rat) * scale),
        first_character := false }
    else s
  match emitGlyphs ctx params converted_ysize scale base_line dir
      s.lastline_must_break w2 gs (List.range gs.length) s with
  | (false, s2) => (false, s2)
  | (true, s2) =>
    let s3 := { s2 with buffer := s2.buffer.addWordBoundary params }
    let s4 := { s3 with
      buffer := { s3.buffer with revision := s3.cache.revision } }
    (true, s4)

/-- The `while (word_enum.Advance())` loop of `CreateBuffer` (lines
294-475).  The fuel argument is strictly larger than the number of words
(each successful multi-line `Advance` strictly increases the span end,
bounded by the break buffer length; single-line mode yields one word), so
the fuel-exhaustion branch is unreachable and mirrors normal loop exit. -/
def iterateWords (ctx : FmCtx) (params : FontBufferParameters)
    (converted_ysize : Int) (scale : Rat) (base_line : Int)
    (dir : TextLayoutDirection) (pos_start : Rat) (line_height : Rat) :
    Nat → WordEnumerator → LoopSt → Bool × LoopSt
  | 0, _, s => (true, s)
  | fuel + 1, w, s =>
    match w.advance with
    | (false, _) => (true, s)
    | (true, w2) =>
      match stepLine ctx params scale dir pos_start line_height w2 s with
      | (none, s2) => (true, s2)
      | (some gs, s2) =>
        match wordBody ctx params converted_ysize scale base_line dir w2 gs s2 with
        | (false, s3) => (false, s3)
        | (true, s3) =>
          iterateWords ctx params converted_ysize scale base_line dir
            pos_start line_height fuel w2 s3

/-- The per-code-point loop of `FontManager::UpdateUV` (lines 564-577):
re-fetch every recorded code point, rewrite its quad's UVs in place and
stamp the buffer with the cache revision; abort with `false` on
cache-full. -/
def updateUVLoop (ctx : FmCtx) (ysize : Int) (flags : Nat) :
    List Nat → Nat → FontBuffer → GlyphCache → Bool × FontBuffer × GlyphCache
  | [], _, buf, c => (true, buf, c)
  | cp :: rest, i, buf, c =>
    match ctx.fetch ⟨ctx.font_id, cp, ysize, flags⟩ c with
    | (none, c2) => (false, buf, c2)
    | (some entry, c2) =>
      updateUVLoop ctx ysize flags rest (i + 1)
        { (buf.updateUVAt i entry.uv) with revision := c2.revision } c2

/-- `FontManager::UpdateUV` (lines 553-580).  The C++ function mutates the
buffer in place through a pointer owned by the deduplication map; the model
writes the (possibly partially updated) buffer back into the map under its
parameter key and returns `none` exactly when the C++ function returns
`nullptr`. -/
def updateUVm (ctx : FmCtx) (ysize : Int) (flags : Nat)
    (key : FontBufferParameters) (buf : FontBuffer) (st : FontManagerState) :
    Option FontBuffer × FontManagerState :=
  if buf.revision ≠ st.current_atlas_revision then
    match updateUVLoop ctx ysize flags buf.code_points 0 buf st.cache with
    | (ok, b2, c2) =>
      ((if ok then some b2 else none),
       { st with
         cache := c2,
         map_buffers := mupdate key b2 st.map_buffers })
  else (some buf, st)

/-- `FontManager::ConvertSize` (lines 1058-1064). -/
def convertSize (ctx : FmCtx) (y : Int) : Int :=
  match ctx.size_selector with
  | some f => f y
  | none => y

/-- `FontManager::CreateBuffer` (lines 226-511): deduplicate (with UV
refresh, pass update and optional ref-count bump), or lay out a new
buffer word by word, aborting with `none` (and an untouched map) when the
glyph cache reports full, and otherwise finalizing the buffer and
inserting it into the deduplication map.  The ghost `create_calls` counter
records the entry. -/
def createBuffer (ctx : FmCtx) (params : FontBufferParameters)
    (st0 : FontManagerState) : Option FontBuffer × FontManagerState :=
  let st := { st0 with create_calls := st0.create_calls + 1 }
  let ysize : Int := params.font_size
  let converted_ysize := convertSize ctx ysize
  let scale : Rat := (ysize : Rat) / (converted_ysize : Rat)
  match mlookup params st.map_buffers with
  | some buf =>
    let buf := if st.current_pass ≠ kRenderPass then
        { buf with pass := st.current_pass } else buf
    let st := { st with map_buffers := mupdate params buf st.map_buffers }
    match updateUVm ctx converted_ysize params.glyph_flags params buf st with
    | (none, st2) => (none, st2)
    | (some b2, st2) =>
      let b3 := if params.ref_count_flag then
          { b2 with ref_count := b2.ref_count + 1 } else b2
      (some b3, { st2 with map_buffers := mupdate params b3 st2.map_buffers })
  | none =>
    let base_line := ctx.base_line
    let initial_metrics : FontMetrics :=
      { base_line := base_line, internal_leading := 0, ascender := base_line,
        descender := base_line - ysize, external_leading := 0 }
    let pos_start : Rat :=
      if st.layout_direction = TextLayoutDirection.rtl then (params.sizeX : Rat)
      else 0
    let line_height : Rat := (ysize : Rat) * ctx.line_height_factor
    let w0 := WordEnumerator.init ctx.breaks (!params.multi_line)
    let s0 : LoopSt :=
      { buffer := FontBuffer.mk0 params.caret_info, pos := (pos_start, 0),
        metrics := initial_metrics,
        atlas_indices := (fun _ => kInvalidSliceIndex), cache := st.cache,
        line_width := 0, max_line_width := params.line_length,
        total_height := toU32 ysize, lastline_must_break := false,
        first_character := true, layout_calls := st.layout_calls }
    match iterateWords ctx params converted_ysize scale base_line
        st.layout_direction pos_start line_height (ctx.breaks.length + 2)
        w0 s0 with
    | (false, s1) =>
      (none, { st with cache := s1.cache, layout_calls := s1.layout_calls })
    | (true, s1) =>
      let b := s1.buffer
      let b := if params.caret_info then
          b.addCaretPosition (s1.pos.1, s1.pos.2 + (base_line : Rat) * scale)
        else b
      let b := b.updateLine params st.layout_direction
        ((s1.line_width / kFreeTypeUnit : Nat) : Int) true
      let b := { b with
        sizeX := ((s1.max_line_width / kFreeTypeUnit : Nat) : Int),
        sizeY := (s1.total_height : Int) }
      let b := { b with metrics := s1.metrics }
      let b := { b with ref_count := 1 }
      let b := if st.current_pass ≠ kRenderPass then
          { b with pass := st.current_pass } else b
      (some b,
       { st with
         map_buffers := (params, b) :: st.map_buffers,
         cache := s1.cache,
         layout_calls := s1.layout_calls })

/-- `FontManager::UpdatePass` (lines 855-888): advance the cache cycle
counter; upload dirty rectangles and snapshot the revision when dirty and
still in pass ≤ 0; on `start_subpass`, warn when already past the first
subpass, then flush the atlas unconditionally, snapshot the revision and
advance the pass; otherwise enter the terminal render pass. -/
def updatePass (start_subpass : Bool) (st0 : FontManagerState) :
    FontManagerState :=
  let st := { st0 with cache := st0.cache.update }
  let st :=
    if st.cache.dirty = true ∧ st.current_pass ≤ 0 then
      { st with
        current_atlas_revision := st.cache.revision,
        cache := { st.cache with dirty := false } }
    else st
  if start_subpass = true then
    let st := if 0 < st.current_pass then
        { st with warnings := st.warnings + 1 } else st
    { st with
      cache := st.cache.flush,
      current_atlas_revision := (st.cache.flush).revision,
      current_pass := st.current_pass + 1,
      flush_count := st.flush_count + 1 }
  else { st with current_pass := kRenderPass }

/-- `FontManager::StartLayoutPass` (lines 850-853). -/
def startLayoutPass (st : FontManagerState) : FontManagerState :=
  { st with current_pass := 0 }

/-- Modelled from the spec: `FlushAndUpdate` (declared in font_manager.h,
not in src/) flushes the glyph atlas and uploads it — the
`UpdatePass(start_subpass = true)` protocol step. -/
def flushAndUpdate (st : FontManagerState) : FontManagerState :=
  updatePass true st

/-- `FontManager::GetBuffer` (lines 206-224): build (or fetch) the buffer;
on failure flush the atlas once and retry once; surface `none` only when
the retry also fails. -/
def getBuffer (ctx : FmCtx) (params : FontBufferParameters)
    (st : FontManagerState) : Option FontBuffer × FontManagerState :=
  match createBuffer ctx params st with
  | (some b, st1) => (some b, st1)
  | (none, st1) => createBuffer ctx params (flushAndUpdate st1)

/-- `FontManager::ReleaseBuffer` (lines 513-523): decrement the reference
count; at zero, release the cache-row back references and erase the
buffer's map entry (the buffer in C++ is addressed through its stored map
iterator; the model addresses it by its parameter key).  The precondition
`ref_count >= 1` is the source's assertion. -/
def releaseBuffer (params : FontBufferParameters) (st : FontManagerState) :
    FontManagerState :=
  match mlookup params st.map_buffers with
  | none => st
  | some buf =>
    let buf2 := { buf with ref_count := buf.ref_count - 1 }
    if buf2.ref_count = 0 then
      { st with
        map_buffers := merase params st.map_buffers,
        row_ref_releases := st.row_ref_releases + 1 }
    else { st with map_buffers := mupdate params buf2 st.map_buffers }

/-- A layout context with one shaped glyph (id 1), a one-byte must-break
text, and a glyph cache oracle that always reports cache-full. -/
def ctxW : FmCtx :=
  { text_length := 1, breaks := [BreakClass.mustBreak],
    shape := (fun _ _ => [⟨1, 64, 0, 0⟩]),
    fetch := (fun _ c => (none, c)),
    glyph_top := (fun _ => 0), glyph_rows := (fun _ => 0),
    base_line := 10, font_id := 7, size_selector := none,
    line_height_factor := 1 }

/-- Single-line, unconstrained-height buffer parameters. -/
def paramsW : FontBufferParameters :=
  { font_id := 7, text_hash := 1, font_size := 12, sizeX := 0, sizeY := 0,
    text_alignment := { base := TextAlignmentBase.left, justify := false },
    glyph_flags := 0, caret_info := false, ref_count_flag := false,
    multi_line := false, line_length := 0 }

/-- An initial manager state: empty map, revision 0, layout pass 0. -/
def stW : FontManagerState :=
  { map_buffers := [], current_atlas_revision := 0, current_pass := 0,
    cache := { revision := 0, dirty := false, counter := 0, num_slices := 1 },
    layout_direction := TextLayoutDirection.ltr, flush_count := 0,
    create_calls := 0, layout_calls := 0, warnings := 0,
    row_ref_releases := 0 }

/-- A manager state already inside its first subpass (`current_pass_ = 1`). -/
def stPass1 : FontManagerState := { stW with current_pass := 1 }

/-- A live buffer with one reference. -/
def relBuf : FontBuffer := { FontBuffer.mk0 false with ref_count := 1 }

/-- A state whose map holds `relBuf` under `paramsW`. -/
def relState : FontManagerState :=
  { stW with map_buffers := [(paramsW, relBuf)] }

/-- A buffer with an empty code-point list (e.g. from whitespace-only text:
zero-sized glyphs record no code points). -/
def uvBufOne : FontBuffer := { FontBuffer.mk0 false with code_points := [65] }

/-- A state whose atlas revision snapshot (5) differs from `revision` 0 of
the buffers above, making them stale. -/
def uvState5 : FontManagerState :=
  { stW with current_atlas_revision := 5,
             cache := { revision := 5, dirty := false, counter := 0,
                        num_slices := 1 } }

/-- Ref-counted parameters for the deduplication scenario. -/
def dedupParams : FontBufferParameters :=
  { paramsW with ref_count_flag := true, text_hash := 2 }

/-- The deduplication scenario start state: `relBuf` cached under
`dedupParams`. -/
def dedupSt0 : FontManagerState :=
  { stW with map_buffers := [(dedupParams, relBuf)] }

/-- The buffer after the first deduplicated fetch: reference count 2. -/
def dedupBuf2 : FontBuffer := { FontBuffer.mk0 false with ref_count := 2 }

/-- The state after the first deduplicated fetch. -/
def dedupSt1 : FontManagerState :=
  { stW with map_buffers := [(dedupParams, dedupBuf2)], create_calls := 1 }

theorem advance_of_finished (w : WordEnumerator) (h : w.finished = true) :
    w.advance = (false, { w with current_index := w.current_index + w.current_length }) := by
  simp [WordEnumerator.advance, h]

theorem advance_of_finished_state (w : WordEnumerator) (h : w.finished = true) :
    (w.advance).2.finished = true := by
  rw [advance_of_finished w h]
  exact h

theorem advanceIter_of_finished (w : WordEnumerator) (h : w.finished = true) :
    ∀ n, (w.advanceIter n).1 = false := by
  intro n
  induction n generalizing w with
  | zero => rw [WordEnumerator.advanceIter, advance_of_finished w h]
  | succ n ih =>
    rw [WordEnumerator.advanceIter]
    exact ih _ (advance_of_finished_state w h)

theorem findBreakAux_le_length (l : List BreakClass) : findBreakAux l ≤ l.length := by
  induction l with
  | nil => simp [findBreakAux]
  | cons c rest ih =>
    cases hc : c.isBreak <;> simp [findBreakAux, hc] <;> omega

theorem findBreakAux_of_no_break (l : List BreakClass)
    (h : ∀ c ∈ l, c.isBreak = false) : findBreakAux l = l.length := by
  induction l with
  | nil => simp [findBreakAux]
  | cons c rest ih =>
    have hc : c.isBreak = false := h c (by simp)
    have ih2 := ih (fun x hx => h x (by simp [hx]))
    simp [findBreakAux, hc, ih2]

theorem findBreakAux_lt_of_last (l : List BreakClass) (hne : l ≠ [])
    (h : (l.getD (l.length - 1) BreakClass.other).isBreak = true) :
    findBreakAux l < l.length := by
  induction l with
  | nil => exact absurd rfl hne
  | cons c rest ih =>
    cases hc : c.isBreak with
    | true => simp [findBreakAux, hc]
    | false =>
      cases rest with
      | nil =>
        simp only [List.length_cons, List.length_nil, Nat.zero_add,
          Nat.sub_self, List.getD_cons_zero] at h
        rw [h] at hc
        exact absurd hc (by simp)
      | cons d tail =>
        have h2 : ((d :: tail).getD ((d :: tail).length - 1) BreakClass.other).isBreak
            = true := by
          have hx : (c :: d :: tail).length - 1 = ((d :: tail).length - 1) + 1 := by
            simp
          rw [hx, List.getD_cons_succ] at h
          exact h
        have h3 := ih (by simp) h2
        have hu : findBreakAux (c :: d :: tail) = findBreakAux (d :: tail) + 1 := by
          rw [findBreakAux]
          simp [hc]
        rw [hu]
        simp only [List.length_cons] at h3 ⊢
        omega

theorem findBreakAux_isBreak (l : List BreakClass)
    (h : findBreakAux l < l.length) :
    (l.getD (findBreakAux l) BreakClass.other).isBreak = true := by
  induction l with
  | nil => simp at h
  | cons c rest ih =>
    cases hc : c.isBreak with
    | true => simpa [findBreakAux, hc] using hc
    | false =>
      simp only [findBreakAux, hc, Bool.false_eq_true, if_false,
        List.length_cons] at h ⊢
      rw [List.getD_cons_succ]
      exact ih (by omega)

theorem advance_guard_false (w : WordEnumerator) (hs : w.single_line = false)
    (hg : w.buffer.length ≤ w.current_index + w.current_length ∨ w.finished = true) :
    w.advance = (false, { w with current_index := w.current_index + w.current_length }) := by
  unfold WordEnumerator.advance
  rw [if_neg (by simp [hs]), if_pos hg]

theorem advance_multi_success (w : WordEnumerator) (hs : w.single_line = false)
    (hi : w.current_index + w.current_length < w.buffer.length)
    (hf : w.finished = false) :
    w.advance = (true, { w with
      current_index := w.current_index + w.current_length,
      current_length :=
        findBreakAux (w.buffer.drop (w.current_index + w.current_length)) + 1 }) := by
  unfold WordEnumerator.advance
  rw [if_neg (by simp [hs]),
    if_neg (by rw [not_or]; exact ⟨by omega, by simp [hf]⟩),
    Nat.add_sub_cancel_left]

theorem advance_true_guard (w : WordEnumerator) (hs : w.single_line = false)
    (h : (w.advance).1 = true) :
    w.current_index + w.current_length < w.buffer.length ∧ w.finished = false := by
  by_cases hg : w.buffer.length ≤ w.current_index + w.current_length ∨ w.finished = true
  · rw [advance_guard_false w hs hg] at h
    exact absurd h (by simp)
  · rw [not_or] at hg
    refine ⟨by omega, ?_⟩
    cases hfin : w.finished
    · rfl
    · exact absurd hfin hg.2

theorem getD_drop (l : List BreakClass) (i n : Nat) :
    (l.drop i).getD n BreakClass.other = l.getD (i + n) BreakClass.other := by
  induction l generalizing i n with
  | nil => simp
  | cons c rest ih =>
    cases i with
    | zero => simp
    | succ i =>
      simp only [List.drop_succ_cons]
      rw [ih i n]
      have hx : i + 1 + n = (i + n) + 1 := by omega
      rw [hx, List.getD_cons_succ]

theorem updAt_length {α : Type} (f : α → α) (n : Nat) (l : List α) :
    (updAt f n l).length = l.length := by
  induction l generalizing n with
  | nil => cases n <;> rfl
  | cons x xs ih =>
    cases n with
    | zero => rfl
    | succ n =>
      show (x :: updAt f n xs).length = (x :: xs).length
      simp [ih]

theorem updAt_getD_ne {α : Type} (f : α → α) (n m : Nat) (l : List α) (d : α)
    (h : m ≠ n) : (updAt f n l).getD m d = l.getD m d := by
  induction l generalizing n m with
  | nil => cases n <;> rfl
  | cons x xs ih =>
    cases n with
    | zero =>
      cases m with
      | zero => exact absurd rfl h
      | succ m => rfl
    | succ n =>
      cases m with
      | zero => rfl
      | succ m =>
        show (x :: updAt f n xs).getD (m + 1) d = (x :: xs).getD (m + 1) d
        rw [List.getD_cons_succ, List.getD_cons_succ]
        exact ih n m (by omega)

theorem updAt_getD_eq {α : Type} (f : α → α) (n : Nat) (l : List α) (d : α)
    (h : n < l.length) : (updAt f n l).getD n d = f (l.getD n d) := by
  induction l generalizing n with
  | nil => simp at h
  | cons x xs ih =>
    cases n with
    | zero => rfl
    | succ n =>
      show (x :: updAt f n xs).getD (n + 1) d = f ((x :: xs).getD (n + 1) d)
      rw [List.getD_cons_succ, List.getD_cons_succ]
      exact ih n (by simpa using h)

theorem applyGlyphOffset_length (idx : Nat) (o : Int) (vs : List FontVertex) :
    (applyGlyphOffset idx o vs).length = vs.length := by
  simp [applyGlyphOffset, updAt_length]

theorem applyGlyphOffset_getD (idx : Nat) (o : Int) (vs : List FontVertex)
    (j : Nat) (hj : j < vs.length) :
    (applyGlyphOffset idx o vs).getD j defaultVertex =
      if idx * 4 ≤ j ∧ j < idx * 4 + 4 then shiftX o (vs.getD j defaultVertex)
      else vs.getD j defaultVertex := by
  by_cases hw : idx * 4 ≤ j ∧ j < idx * 4 + 4
  · rw [if_pos hw]
    unfold applyGlyphOffset
    have h4 : j = idx * 4 ∨ j = idx * 4 + 1 ∨ j = idx * 4 + 2 ∨ j = idx * 4 + 3 := by
      omega
    rcases h4 with h | h | h | h <;> subst h
    · rw [updAt_getD_ne _ _ _ _ _ (by omega), updAt_getD_ne _ _ _ _ _ (by omega),
        updAt_getD_ne _ _ _ _ _ (by omega),
        updAt_getD_eq _ _ _ _ (by omega)]
    · rw [updAt_getD_ne _ _ _ _ _ (by omega), updAt_getD_ne _ _ _ _ _ (by omega),
        updAt_getD_eq _ _ _ _ (by simp only [updAt_length]; omega),
        updAt_getD_ne _ _ _ _ _ (by omega)]
    · rw [updAt_getD_ne _ _ _ _ _ (by omega),
        updAt_getD_eq _ _ _ _ (by simp only [updAt_length]; omega),
        updAt_getD_ne _ _ _ _ _ (by omega), updAt_getD_ne _ _ _ _ _ (by omega)]
    · rw [updAt_getD_eq _ _ _ _ (by simp only [updAt_length]; omega),
        updAt_getD_ne _ _ _ _ _ (by omega), updAt_getD_ne _ _ _ _ _ (by omega),
        updAt_getD_ne _ _ _ _ _ (by omega)]
  · rw [if_neg hw]
    unfold applyGlyphOffset
    rw [updAt_getD_ne _ _ _ _ _ (by omega), updAt_getD_ne _ _ _ _ _ (by omega),
      updAt_getD_ne _ _ _ _ _ (by omega), updAt_getD_ne _ _ _ _ _ (by omega)]

theorem vertexJustifyLoop_length (jf : Bool) (wb : List Nat) (ch : Int)
    (l : List Nat) : ∀ (st : Nat × Int) (vs : List FontVertex),
    ((vertexJustifyLoop jf wb ch l st vs).2).length = vs.length := by
  induction l with
  | nil => intro st vs; rfl
  | cons idx rest ih =>
    intro st vs
    simp only [vertexJustifyLoop]
    rw [ih, applyGlyphOffset_length]

theorem caretJustifyLoop_length (jf : Bool) (wb : List Nat) (ch : Int)
    (l : List Nat) : ∀ (st : Nat × Int) (cs : List (Int × Int)),
    ((caretJustifyLoop jf wb ch l st cs).2).length = cs.length := by
  induction l with
  | nil => intro st cs; rfl
  | cons idx rest ih =>
    intro st cs
    simp only [caretJustifyLoop]
    rw [ih, updAt_length]

theorem vertexJustifyLoop_getD_lt (jf : Bool) (wb : List Nat) (ch : Int)
    (k : Nat) : ∀ (s : Nat) (st : Nat × Int) (vs : List FontVertex) (j : Nat),
    j < 4 * s →
    ((vertexJustifyLoop jf wb ch (List.range' s k) st vs).2).getD j defaultVertex
      = vs.getD j defaultVertex := by
  induction k with
  | zero => intro s st vs j hj; rfl
  | succ k ih =>
    intro s st vs j hj
    rw [List.range'_succ]
    simp only [vertexJustifyLoop]
    rw [ih (s + 1) _ _ j (by omega)]
    unfold applyGlyphOffset
    rw [updAt_getD_ne _ _ _ _ _ (by omega), updAt_getD_ne _ _ _ _ _ (by omega),
      updAt_getD_ne _ _ _ _ _ (by omega), updAt_getD_ne _ _ _ _ _ (by omega)]

theorem caretJustifyLoop_getD_lt (jf : Bool) (wb : List Nat) (ch : Int)
    (k : Nat) : ∀ (s : Nat) (st : Nat × Int) (cs : List (Int × Int)) (j : Nat),
    j < s →
    ((caretJustifyLoop jf wb ch (List.range' s k) st cs).2).getD j (0, 0)
      = cs.getD j (0, 0) := by
  induction k with
  | zero => intro s st cs j hj; rfl
  | succ k ih =>
    intro s st cs j hj
    rw [List.range'_succ]
    simp only [caretJustifyLoop]
    rw [ih (s + 1) _ _ j (by omega)]
    rw [updAt_getD_ne _ _ _ _ _ (by omega)]

theorem updateLine_shape (b : FontBuffer) (params : FontBufferParameters)
    (dir : TextLayoutDirection) (lw : Int) (last : Bool) :
    ∃ vs cs, b.updateLine params dir lw last =
      { b with
        vertices := vs,
        caret_positions := cs,
        line_start_index := b.code_points.length,
        line_start_caret_index := cs.length,
        word_boundary := [],
        word_boundary_caret := [] } ∧
      vs.length = b.vertices.length ∧
      cs.length = b.caret_positions.length ∧
      (∀ j, j < 4 * b.line_start_index →
        vs.getD j defaultVertex = b.vertices.getD j defaultVertex) ∧
      (∀ j, j < b.line_start_caret_index →
        cs.getD j (0, 0) = b.caret_positions.getD j (0, 0)) := by
  by_cases hc : (params.text_alignment.justify && !last) = true
      ∨ params.text_alignment.base ≠ TextAlignmentBase.left
  · by_cases hci : b.has_caret_info = true
    · simp only [FontBuffer.updateLine, if_pos hc, hci, if_true]
      refine ⟨_, _, rfl, vertexJustifyLoop_length _ _ _ _ _ _,
        caretJustifyLoop_length _ _ _ _ _ _, ?_, ?_⟩
      · intro j hj
        exact vertexJustifyLoop_getD_lt _ _ _ _ _ _ _ j hj
      · intro j hj
        exact caretJustifyLoop_getD_lt _ _ _ _ _ _ _ j hj
    · simp only [FontBuffer.updateLine, if_pos hc, hci, if_false]
      refine ⟨_, b.caret_positions, rfl, vertexJustifyLoop_length _ _ _ _ _ _,
        rfl, ?_, fun j hj => rfl⟩
      intro j hj
      exact vertexJustifyLoop_getD_lt _ _ _ _ _ _ _ j hj
  · simp only [FontBuffer.updateLine, if_neg hc]
    exact ⟨b.vertices, b.caret_positions, rfl, rfl, rfl,
      fun j hj => rfl, fun j hj => rfl⟩

theorem cntLt_cons (e : Nat) (t : List Nat) (s : Nat) :
    cntLt (e :: t) s = cntLt t s + (if e < s then 1 else 0) := by
  simp [cntLt, List.countP_cons]

theorem cntLt_eq_zero (l : List Nat) (s : Nat) (h : ∀ x ∈ l, ¬ x < s) :
    cntLt l s = 0 := by
  simp only [cntLt, List.countP_eq_zero]
  intro a ha
  simp [h a ha]

/-- For a strictly increasing boundary list that still has an element beyond
`s`, the boundary entry at index `cntLt wb s` decides whether the count grows
when moving from `s` to `s + 1`. -/
theorem cntLt_succ_getD (wb : List Nat) (s : Nat)
    (hp : List.Pairwise (· < ·) wb) (hbig : ∃ e ∈ wb, s < e) :
    (wb.getD (cntLt wb s) 0 ≤ s → cntLt wb (s + 1) = cntLt wb s + 1) ∧
    (¬ wb.getD (cntLt wb s) 0 ≤ s → cntLt wb (s + 1) = cntLt wb s) := by
  induction wb with
  | nil =>
    obtain ⟨e, he, _⟩ := hbig
    simp at he
  | cons h t ih =>
    rw [List.pairwise_cons] at hp
    by_cases hlt : h < s
    · have hbig2 : ∃ e ∈ t, s < e := by
        obtain ⟨e, he, hse⟩ := hbig
        rcases List.mem_cons.mp he with rfl | het
        · exact absurd hse (by omega)
        · exact ⟨e, het, hse⟩
      have iht := ih hp.2 hbig2
      have hc1 : cntLt (h :: t) s = cntLt t s + 1 := by
        rw [cntLt_cons, if_pos hlt]
      have hc2 : cntLt (h :: t) (s + 1) = cntLt t (s + 1) + 1 := by
        rw [cntLt_cons, if_pos (by omega)]
      have hg : (h :: t).getD (cntLt (h :: t) s) 0 = t.getD (cntLt t s) 0 := by
        rw [hc1, List.getD_cons_succ]
      constructor
      · intro hcond
        rw [hg] at hcond
        rw [hc2, hc1, iht.1 hcond]
      · intro hcond
        rw [hg] at hcond
        rw [hc2, hc1, iht.2 hcond]
    · have htz : cntLt t s = 0 := by
        apply cntLt_eq_zero
        intro x hx
        have := hp.1 x hx
        omega
      have hcz : cntLt (h :: t) s = 0 := by
        rw [cntLt_cons, if_neg hlt, htz]
      have hg : (h :: t).getD (cntLt (h :: t) s) 0 = h := by
        rw [hcz]
        rfl
      constructor
      · intro hcond
        rw [hg] at hcond
        have hhs : h = s := by omega
        have htz2 : cntLt t (s + 1) = 0 := by
          apply cntLt_eq_zero
          intro x hx
          have := hp.1 x hx
          omega
        rw [cntLt_cons, htz2, if_pos (by omega), hcz]
      · intro hcond
        rw [hg] at hcond
        have htz2 : cntLt t (s + 1) = 0 := by
          apply cntLt_eq_zero
          intro x hx
          have := hp.1 x hx
          omega
        rw [cntLt_cons, htz2, if_neg (by omega), hcz]

/-- One `offsetStep` of the justification loop advances the boundary count
from `cntLt wb s` to `cntLt wb (s + 1)` and keeps the offset equal to
`off0 + change * count`. -/
theorem offsetStep_cnt (wb : List Nat) (change off0 : Int) (s : Nat)
    (hp : List.Pairwise (· < ·) wb) (hbig : ∃ e ∈ wb, s < e) :
    offsetStep true wb change s (cntLt wb s, off0 + change * (cntLt wb s : Int))
      = (cntLt wb (s + 1), off0 + change * (cntLt wb (s + 1) : Int)) := by
  obtain ⟨hyes, hno⟩ := cntLt_succ_getD wb s hp hbig
  unfold offsetStep
  by_cases hcond : wb.getD (cntLt wb s) 0 ≤ s
  · have hcc : (true = true) ∧ wb.getD (cntLt wb s) 0 ≤ s := ⟨rfl, hcond⟩
    rw [if_pos hcc, hyes hcond]
    simp only [Prod.mk.injEq]
    refine ⟨by trivial, ?_⟩
    push_cast
    ring
  · rw [if_neg (fun hco => hcond hco.2), hno hcond]

/-- `offsetStep` with the justify flag off is the identity. -/
theorem offsetStep_false (wb : List Nat) (ch : Int) (idx : Nat) (st : Nat × Int) :
    offsetStep false wb ch idx st = st := by
  unfold offsetStep
  rw [if_neg]
  intro hco
  exact absurd hco.1 (by simp)

/-- Full characterization of the glyph-position loop of `UpdateLine` under
justification: starting at glyph `s` with boundary state `cntLt wb s`, glyph
`idx` of the line receives the incremental offset
`off0 + change * cntLt wb (idx + 1)`, i.e. `change` once per word boundary
at or before it. -/
theorem vertexJustifyLoop_char (wb : List Nat) (change off0 : Int)
    (hp : List.Pairwise (· < ·) wb) (k : Nat) :
    ∀ (s : Nat) (vs : List FontVertex), (∃ e ∈ wb, s + k ≤ e) →
    (vertexJustifyLoop true wb change (List.range' s k)
        (cntLt wb s, off0 + change * (cntLt wb s : Int)) vs).1
      = (cntLt wb (s + k), off0 + change * (cntLt wb (s + k) : Int)) ∧
    ∀ j, j < vs.length →
      ((vertexJustifyLoop true wb change (List.range' s k)
          (cntLt wb s, off0 + change * (cntLt wb s : Int)) vs).2).getD j defaultVertex
        = if 4 * s ≤ j ∧ j < 4 * (s + k) then
            shiftX (off0 + change * (cntLt wb (j / 4 + 1) : Int))
              (vs.getD j defaultVertex)
          else vs.getD j defaultVertex := by
  induction k with
  | zero =>
    intro s vs hbig
    refine ⟨rfl, ?_⟩
    intro j hj
    rw [if_neg (by omega)]
    rfl
  | succ k ih =>
    intro s vs hbig
    have hbig1 : ∃ e ∈ wb, s < e := by
      obtain ⟨e, he, hse⟩ := hbig
      exact ⟨e, he, by omega⟩
    have hbig2 : ∃ e ∈ wb, (s + 1) + k ≤ e := by
      obtain ⟨e, he, hse⟩ := hbig
      exact ⟨e, he, by omega⟩
    rw [List.range'_succ]
    simp only [vertexJustifyLoop]
    rw [offsetStep_cnt wb change off0 s hp hbig1]
    have iha := ih (s + 1) (applyGlyphOffset s (off0 + change * (cntLt wb (s + 1) : Int)) vs) hbig2
    have hxk : s + 1 + k = s + (k + 1) := by omega
    rw [hxk] at iha
    refine ⟨iha.1, ?_⟩
    intro j hj
    have hj2 : j < (applyGlyphOffset s (off0 + change * (cntLt wb (s + 1) : Int)) vs).length := by
      rw [applyGlyphOffset_length]
      exact hj
    rw [iha.2 j hj2, applyGlyphOffset_getD _ _ _ _ hj]
    by_cases c1 : j < 4 * s
    · rw [if_neg (by omega), if_neg (by omega), if_neg (by omega)]
    · by_cases c2 : j < 4 * s + 4
      · rw [if_neg (by omega), if_pos (by omega), if_pos (by omega)]
        have hdiv : j / 4 = s := by omega
        rw [hdiv]
      · by_cases c3 : j < 4 * (s + (k + 1))
        · rw [if_pos (by omega), if_neg (by omega), if_pos (by omega)]
        · rw [if_neg (by omega), if_neg (by omega), if_neg (by omega)]

/-- Counterpart of `vertexJustifyLoop_char` for the caret loop: caret `idx`
receives the offset `off0 + change * cntLt wb (idx + 1)`. -/
theorem caretJustifyLoop_char (wb : List Nat) (change off0 : Int)
    (hp : List.Pairwise (· < ·) wb) (k : Nat) :
    ∀ (s : Nat) (cs : List (Int × Int)), (∃ e ∈ wb, s + k ≤ e) →
    (caretJustifyLoop true wb change (List.range' s k)
        (cntLt wb s, off0 + change * (cntLt wb s : Int)) cs).1
      = (cntLt wb (s + k), off0 + change * (cntLt wb (s + k) : Int)) ∧
    ∀ j, j < cs.length →
      ((caretJustifyLoop true wb change (List.range' s k)
          (cntLt wb s, off0 + change * (cntLt wb s : Int)) cs).2).getD j (0, 0)
        = if s ≤ j ∧ j < s + k then
            shiftCaret (off0 + change * (cntLt wb (j + 1) : Int)) (cs.getD j (0, 0))
          else cs.getD j (0, 0) := by
  induction k with
  | zero =>
    intro s cs hbig
    refine ⟨rfl, ?_⟩
    intro j hj
    rw [if_neg (by omega)]
    rfl
  | succ k ih =>
    intro s cs hbig
    have hbig1 : ∃ e ∈ wb, s < e := by
      obtain ⟨e, he, hse⟩ := hbig
      exact ⟨e, he, by omega⟩
    have hbig2 : ∃ e ∈ wb, (s + 1) + k ≤ e := by
      obtain ⟨e, he, hse⟩ := hbig
      exact ⟨e, he, by omega⟩
    rw [List.range'_succ]
    simp only [caretJustifyLoop]
    rw [offsetStep_cnt wb change off0 s hp hbig1]
    have iha := ih (s + 1)
      (updAt (shiftCaret (off0 + change * (cntLt wb (s + 1) : Int))) s cs) hbig2
    have hxk : s + 1 + k = s + (k + 1) := by omega
    rw [hxk] at iha
    refine ⟨iha.1, ?_⟩
    intro j hj
    have hj2 : j < (updAt (shiftCaret (off0 + change * (cntLt wb (s + 1) : Int))) s cs).length := by
      rw [updAt_length]
      exact hj
    rw [iha.2 j hj2]
    by_cases c1 : j < s
    · rw [if_neg (by omega), if_neg (by omega), updAt_getD_ne _ _ _ _ _ (by omega)]
    · by_cases c2 : j = s
      · subst c2
        rw [if_neg (by omega), if_pos (by omega), updAt_getD_eq _ _ _ _ hj]
      · by_cases c3 : j < s + (k + 1)
        · rw [if_pos (by omega), if_pos (by omega), updAt_getD_ne _ _ _ _ _ (by omega)]
        · rw [if_neg (by omega), if_neg (by omega), updAt_getD_ne _ _ _ _ _ (by omega)]

/-- The glyph loop with the justify flag off shifts every glyph of the range
by the constant alignment offset. -/
theorem vertexJustifyLoop_const (wb : List Nat) (ch : Int) (k : Nat) :
    ∀ (s : Nat) (st : Nat × Int) (vs : List FontVertex),
    ∀ j, j < vs.length →
      ((vertexJustifyLoop false wb ch (List.range' s k) st vs).2).getD j defaultVertex
        = if 4 * s ≤ j ∧ j < 4 * (s + k) then shiftX st.2 (vs.getD j defaultVertex)
          else vs.getD j defaultVertex := by
  induction k with
  | zero =>
    intro s st vs j hj
    rw [if_neg (by omega)]
    rfl
  | succ k ih =>
    intro s st vs j hj
    rw [List.range'_succ]
    simp only [vertexJustifyLoop]
    rw [offsetStep_false]
    have hj2 : j < (applyGlyphOffset s st.2 vs).length := by
      rw [applyGlyphOffset_length]
      exact hj
    rw [ih (s + 1) st _ j hj2, applyGlyphOffset_getD _ _ _ _ hj]
    by_cases c1 : j < 4 * s
    · rw [if_neg (by omega), if_neg (by omega), if_neg (by omega)]
    · by_cases c2 : j < 4 * s + 4
      · rw [if_neg (by omega), if_pos (by omega), if_pos (by omega)]
      · by_cases c3 : j < 4 * (s + (k + 1))
        · rw [if_pos (by omega), if_neg (by omega), if_pos (by omega)]
        · rw [if_neg (by omega), if_neg (by omega), if_neg (by omega)]

/-- For a strictly increasing boundary list whose last entry is `n`, exactly
the other `length - 1` entries lie strictly below `n`. -/
theorem cntLt_last (wb : List Nat) (n : Nat) (hp : List.Pairwise (· < ·) wb)
    (hl : wb.getLast? = some n) : cntLt wb n = wb.length - 1 := by
  induction wb with
  | nil => simp at hl
  | cons h t ih =>
    cases t with
    | nil =>
      simp only [List.getLast?_singleton, Option.some.injEq] at hl
      subst hl
      simp [cntLt]
    | cons h2 t2 =>
      rw [List.getLast?_cons_cons] at hl
      rw [List.pairwise_cons] at hp
      have hcnt := ih hp.2 hl
      have hmem : n ∈ h2 :: t2 := List.mem_of_mem_getLast? hl
      have hhn : h < n := hp.1 n hmem
      rw [cntLt_cons, if_pos hhn, hcnt]
      simp only [List.length_cons]
      omega

/-- The glyph loop of `UpdateLine` under justification, started from the
line's first glyph `L` with offset state `(0, 0)`: glyph `j / 4` is shifted
by `ch` once per word boundary at or before it. -/
theorem justifyVertexCore (wb : List Nat) (ch : Int) (L n : Nat)
    (vs : List FontVertex) (hp : List.Pairwise (· < ·) wb)
    (hcnt0 : cntLt wb L = 0) (hbig : ∃ e ∈ wb, n ≤ e) (hLn : L ≤ n)
    (hvs : vs.length = 4 * n) :
    ∀ j, j < 4 * n →
      ((vertexJustifyLoop true wb ch (List.range' L (n - L)) (0, 0) vs).2).getD j
          defaultVertex
        = if 4 * L ≤ j then
            shiftX (ch * (cntLt wb (j / 4 + 1) : Int)) (vs.getD j defaultVertex)
          else vs.getD j defaultVertex := by
  have harg : ((0 : Nat), (0 : Int)) = (cntLt wb L, 0 + ch * (cntLt wb L : Int)) := by
    simp [hcnt0]
  rw [harg]
  obtain ⟨-, hform⟩ := vertexJustifyLoop_char wb ch 0 hp (n - L) L vs
    (by obtain ⟨e, he, hne⟩ := hbig; exact ⟨e, he, by omega⟩)
  intro j hj
  rw [hform j (by omega)]
  have hwin : L + (n - L) = n := by omega
  rw [hwin]
  by_cases hc : 4 * L ≤ j
  · rw [if_pos ⟨hc, by omega⟩, if_pos hc, zero_add]
  · rw [if_neg (by omega), if_neg hc]

/-- Caret counterpart of `justifyVertexCore`: caret `j` is shifted by `ch`
once per caret word boundary at or before it. -/
theorem justifyCaretCore (wbc : List Nat) (ch : Int) (L n : Nat)
    (cs : List (Int × Int)) (hp : List.Pairwise (· < ·) wbc)
    (hcnt0 : cntLt wbc L = 0) (hbig : ∃ e ∈ wbc, n ≤ e) (hLn : L ≤ n)
    (hcs : cs.length = n) :
    ∀ j, j < n →
      ((caretJustifyLoop true wbc ch (List.range' L (n - L)) (0, 0) cs).2).getD j (0, 0)
        = if L ≤ j then
            shiftCaret (ch * (cntLt wbc (j + 1) : Int)) (cs.getD j (0, 0))
          else cs.getD j (0, 0) := by
  have harg : ((0 : Nat), (0 : Int)) = (cntLt wbc L, 0 + ch * (cntLt wbc L : Int)) := by
    simp [hcnt0]
  rw [harg]
  obtain ⟨-, hform⟩ := caretJustifyLoop_char wbc ch 0 hp (n - L) L cs
    (by obtain ⟨e, he, hne⟩ := hbig; exact ⟨e, he, by omega⟩)
  intro j hj
  rw [hform j (by omega)]
  have hwin : L + (n - L) = n := by omega
  rw [hwin]
  by_cases hc : L ≤ j
  · rw [if_pos ⟨hc, by omega⟩, if_pos hc, zero_add]
  · rw [if_neg (by omega), if_neg hc]

/-- Evaluation of `FontBuffer::UpdateLine` on a committed non-final line with
justification requested and more than one word boundary: every glyph and
caret from the line start onward is shifted by the per-boundary increment
`(sizeX - line_width) tdiv (boundaries - 1)` once per boundary at or before
it, sign-flipped for RTL. -/
theorem updateLine_justify_eval (params : FontBufferParameters)
    (dir : TextLayoutDirection) (lw : Int) (b : FontBuffer)
    (hj : params.text_alignment.justify = true)
    (hdir : dir = TextLayoutDirection.ltr ∨ dir = TextLayoutDirection.rtl)
    (hp : List.Pairwise (· < ·) b.word_boundary)
    (hblen : 1 < b.word_boundary.length)
    (hlastb : b.word_boundary.getLast? = some b.code_points.length)
    (hgeb : ∀ e ∈ b.word_boundary, b.line_start_index ≤ e)
    (hLn : b.line_start_index ≤ b.code_points.length)
    (hvlen : b.vertices.length = 4 * b.code_points.length)
    (hci : b.has_caret_info = true)
    (hpc : List.Pairwise (· < ·) b.word_boundary_caret)
    (hlastc : b.word_boundary_caret.getLast? = some b.caret_positions.length)
    (hgec : ∀ e ∈ b.word_boundary_caret, b.line_start_caret_index ≤ e)
    (hLnc : b.line_start_caret_index ≤ b.caret_positions.length) :
    (∀ j, j < 4 * b.code_points.length →
      (b.updateLine params dir lw false).vertices.getD j defaultVertex
        = if 4 * b.line_start_index ≤ j then
            shiftX ((if dir = TextLayoutDirection.rtl then (-1 : Int) else 1)
                * Int.tdiv (params.sizeX - lw) ((b.word_boundary.length : Int) - 1)
                * (cntLt b.word_boundary (j / 4 + 1) : Int))
              (b.vertices.getD j defaultVertex)
          else b.vertices.getD j defaultVertex) ∧
    (∀ j, j < b.caret_positions.length →
      (b.updateLine params dir lw false).caret_positions.getD j (0, 0)
        = if b.line_start_caret_index ≤ j then
            shiftCaret ((if dir = TextLayoutDirection.rtl then (-1 : Int) else 1)
                * Int.tdiv (params.sizeX - lw) ((b.word_boundary.length : Int) - 1)
                * (cntLt b.word_boundary_caret (j + 1) : Int))
              (b.caret_positions.getD j (0, 0))
          else b.caret_positions.getD j (0, 0)) := by
  have hjf : (params.text_alignment.justify
      && decide (1 < b.word_boundary.length)) = true := by
    rw [hj]
    simp [hblen]
  have hcnt0 : cntLt b.word_boundary b.line_start_index = 0 := by
    apply cntLt_eq_zero
    intro x hx
    have := hgeb x hx
    omega
  have hcnt0c : cntLt b.word_boundary_caret b.line_start_caret_index = 0 := by
    apply cntLt_eq_zero
    intro x hx
    have := hgec x hx
    omega
  have hbigv : ∃ e ∈ b.word_boundary, b.code_points.length ≤ e :=
    ⟨b.code_points.length, List.mem_of_mem_getLast? hlastb, le_refl _⟩
  have hbigc : ∃ e ∈ b.word_boundary_caret, b.caret_positions.length ≤ e :=
    ⟨b.caret_positions.length, List.mem_of_mem_getLast? hlastc, le_refl _⟩
  have hchEff : (if dir = TextLayoutDirection.rtl then
        -(Int.tdiv (params.sizeX - lw) ((b.word_boundary.length : Int) - 1))
      else Int.tdiv (params.sizeX - lw) ((b.word_boundary.length : Int) - 1))
      = (if dir = TextLayoutDirection.rtl then (-1 : Int) else 1)
        * Int.tdiv (params.sizeX - lw) ((b.word_boundary.length : Int) - 1) := by
    rcases hdir with rfl | rfl <;> simp
  have hoffz : (if dir = TextLayoutDirection.rtl then -(0 : Int) else 0) = 0 := by
    rcases hdir with rfl | rfl <;> simp
  simp only [FontBuffer.updateLine, Bool.not_false, Bool.and_true]
  rw [if_pos (Or.inl hj)]
  simp only [hjf, if_true, hci, hoffz, hchEff]
  constructor
  · intro j hj2
    exact justifyVertexCore b.word_boundary _ b.line_start_index
      b.code_points.length b.vertices hp hcnt0 hbigv hLn hvlen j hj2
  · intro j hj2
    exact justifyCaretCore b.word_boundary_caret _ b.line_start_caret_index
      b.caret_positions.length b.caret_positions hpc hcnt0c hbigc hLnc rfl j hj2

/-- Evaluation of `UpdateLine` on a non-final line with justification
requested but at most one word boundary and a left base alignment: the code
falls into the plain-alignment path with the full slack
`sizeX - line_width`, shifting every glyph of the line by the whole slack
(a right-flush placement, not left alignment). -/
theorem updateLine_degrade_eval (params : FontBufferParameters)
    (dir : TextLayoutDirection) (lw : Int) (b : FontBuffer)
    (hj : params.text_alignment.justify = true)
    (hdir : dir = TextLayoutDirection.ltr ∨ dir = TextLayoutDirection.rtl)
    (hwb : b.word_boundary.length ≤ 1)
    (hal : params.text_alignment.base = TextAlignmentBase.left)
    (hLn : b.line_start_index ≤ b.code_points.length)
    (hvlen : b.vertices.length = 4 * b.code_points.length) :
    ∀ j, j < 4 * b.code_points.length →
      (b.updateLine params dir lw false).vertices.getD j defaultVertex
        = if 4 * b.line_start_index ≤ j then
            shiftX ((if dir = TextLayoutDirection.rtl then (-1 : Int) else 1)
                * (params.sizeX - lw))
              (b.vertices.getD j defaultVertex)
          else b.vertices.getD j defaultVertex := by
  have hjf : (params.text_alignment.justify
      && decide (1 < b.word_boundary.length)) = false := by
    have hno : ¬ (1 < b.word_boundary.length) := by omega
    simp [hno]
  have hcen : ¬ params.text_alignment.base = TextAlignmentBase.center := by
    rw [hal]
    intro hcon
    exact absurd hcon (by simp)
  have hoffEff : (if dir = TextLayoutDirection.rtl then -(params.sizeX - lw)
      else params.sizeX - lw)
      = (if dir = TextLayoutDirection.rtl then (-1 : Int) else 1)
        * (params.sizeX - lw) := by
    rcases hdir with rfl | rfl <;> simp
  simp only [FontBuffer.updateLine, Bool.not_false, Bool.and_true]
  rw [if_pos (Or.inl hj)]
  simp only [hjf, Bool.false_eq_true, if_false, if_neg hcen, hoffEff,
    apply_ite FontBuffer.vertices, ite_self]
  intro j hj2
  rw [vertexJustifyLoop_const _ _ _ _ _ _ j (by omega)]
  have hwin : b.line_start_index + (b.code_points.length - b.line_start_index)
      = b.code_points.length := by omega
  rw [hwin]
  by_cases hc : 4 * b.line_start_index ≤ j
  · rw [if_pos ⟨hc, by omega⟩, if_pos hc]
  · rw [if_neg (by omega), if_neg hc]

/-- Evaluation of `UpdateLine` on the final line of a buffer with a left
base alignment: justification is disabled and no geometry moves. -/
theorem updateLine_lastline_eval (params : FontBufferParameters)
    (dir : TextLayoutDirection) (lw : Int) (b : FontBuffer)
    (hal : params.text_alignment.base = TextAlignmentBase.left) :
    (b.updateLine params dir lw true).vertices = b.vertices ∧
    (b.updateLine params dir lw true).caret_positions = b.caret_positions := by
  simp only [FontBuffer.updateLine, Bool.not_true, Bool.and_false]
  rw [if_neg (by simp [hal])]
  exact ⟨rfl, rfl⟩

/-- Claim C10: after every `FontBuffer::UpdateLine` call, the line-start
markers equal the current sizes of the code-point and caret lists and both
word-boundary lists are empty; and `UpdateLine` touches only vertices and
carets at or after its line-start markers, so a later call modifies only
geometry appended after the previous call, never already-committed lines. -/
theorem claim_C10 (b : FontBuffer) (params : FontBufferParameters)
    (dir : TextLayoutDirection) (lw : Int) (last : Bool) :
    ((b.updateLine params dir lw last).line_start_index
        = (b.updateLine params dir lw last).code_points.length) ∧
    ((b.updateLine params dir lw last).line_start_caret_index
        = (b.updateLine params dir lw last).caret_positions.length) ∧
    (b.updateLine params dir lw last).word_boundary = [] ∧
    (b.updateLine params dir lw last).word_boundary_caret = [] ∧
    (b.updateLine params dir lw last).code_points = b.code_points ∧
    (b.updateLine params dir lw last).vertices.length = b.vertices.length ∧
    (b.updateLine params dir lw last).caret_positions.length
        = b.caret_positions.length ∧
    (∀ j, j < 4 * b.line_start_index →
      (b.updateLine params dir lw last).vertices.getD j defaultVertex
        = b.vertices.getD j defaultVertex) ∧
    (∀ j, j < b.line_start_caret_index →
      (b.updateLine params dir lw last).caret_positions.getD j (0, 0)
        = b.caret_positions.getD j (0, 0)) := by
  obtain ⟨vs, cs, heq, hvl, hcl, hvloc, hcloc⟩ := updateLine_shape b params dir lw last
  rw [heq]
  exact ⟨rfl, rfl, rfl, rfl, rfl, hvl, hcl, hvloc, hcloc⟩

/-- Claim C8: a `WordEnumerator` constructed in single-line mode yields, from
`Advance()`, exactly one span covering the whole buffer (index 0, length =
buffer size), and every subsequent `Advance()` returns false, for every
break-class buffer (including buffers containing embedded break
characters). -/
theorem claim_C8 (buf : List BreakClass) :
    ((WordEnumerator.init buf true).advance.1 = true ∧
     (WordEnumerator.init buf true).advance.2.current_index = 0 ∧
     (WordEnumerator.init buf true).advance.2.current_length = buf.length) ∧
    ∀ n : Nat, ((WordEnumerator.init buf true).advanceIter (n + 1)).1 = false := by
  constructor
  · refine ⟨?_, ?_, ?_⟩ <;>
      simp [WordEnumerator.advance, WordEnumerator.init]
  · intro n
    rw [WordEnumerator.advanceIter]
    apply advanceIter_of_finished
    simp [WordEnumerator.advance, WordEnumerator.init]

/-- Claim C9: for a multi-line `WordEnumerator` over a buffer whose last byte
is a break class, every successful `Advance()` yields a span that ends at a
break byte strictly inside the buffer, so `CurrentWordMustBreak`,
`GetCurrentWordIndex` and `GetCurrentWordLength` all index within bounds;
whereas when the bytes from the current offset to the end contain no break
class, `Advance()` yields a span with `current_index + current_length`
equal to buffer size + 1, whose end lies one byte past the end of the
buffer, so the `CurrentWordMustBreak` read position is out of bounds. -/
theorem claim_C9 (w₁ w₂ : WordEnumerator)
    (h1s : w₁.single_line = false)
    (h1a : (w₁.advance).1 = true)
    (h1ne : w₁.buffer ≠ [])
    (h1l : (w₁.buffer.getD (w₁.buffer.length - 1) BreakClass.other).isBreak = true)
    (h2s : w₂.single_line = false) (h2f : w₂.finished = false)
    (h2i : w₂.current_index + w₂.current_length < w₂.buffer.length)
    (h2n : ∀ j, w₂.current_index + w₂.current_length ≤ j → j < w₂.buffer.length →
      (w₂.buffer.getD j BreakClass.other).isBreak = false) :
    ((w₁.advance).2.current_index < w₁.buffer.length ∧
     (w₁.advance).2.current_index + (w₁.advance).2.current_length ≤ w₁.buffer.length ∧
     1 ≤ (w₁.advance).2.current_length ∧
     (w₁.advance).2.mustBreakReadIndex < w₁.buffer.length ∧
     (w₁.buffer.getD ((w₁.advance).2.mustBreakReadIndex) BreakClass.other).isBreak = true) ∧
    ((w₂.advance).1 = true ∧
     (w₂.advance).2.current_index + (w₂.advance).2.current_length
        = w₂.buffer.length + 1 ∧
     ¬ (w₂.advance).2.mustBreakReadIndex < w₂.buffer.length) := by
  obtain ⟨hi, hf⟩ := advance_true_guard w₁ h1s h1a
  have hdroplen : (w₁.buffer.drop (w₁.current_index + w₁.current_length)).length
      = w₁.buffer.length - (w₁.current_index + w₁.current_length) := by simp
  have hdropne : w₁.buffer.drop (w₁.current_index + w₁.current_length) ≠ [] := by
    intro hcon
    have := congrArg List.length hcon
    simp at this
    omega
  have hlast : ((w₁.buffer.drop (w₁.current_index + w₁.current_length)).getD
      ((w₁.buffer.drop (w₁.current_index + w₁.current_length)).length - 1)
      BreakClass.other).isBreak = true := by
    rw [hdroplen, getD_drop]
    have hx : w₁.current_index + w₁.current_length
        + (w₁.buffer.length - (w₁.current_index + w₁.current_length) - 1)
        = w₁.buffer.length - 1 := by omega
    rw [hx]
    exact h1l
  have hflt : findBreakAux (w₁.buffer.drop (w₁.current_index + w₁.current_length))
      < w₁.buffer.length - (w₁.current_index + w₁.current_length) := by
    have := findBreakAux_lt_of_last _ hdropne hlast
    rw [hdroplen] at this
    exact this
  have hbrk : (w₁.buffer.getD (w₁.current_index + w₁.current_length
      + findBreakAux (w₁.buffer.drop (w₁.current_index + w₁.current_length)))
      BreakClass.other).isBreak = true := by
    have := findBreakAux_isBreak (w₁.buffer.drop (w₁.current_index + w₁.current_length))
      (by rw [hdroplen]; exact hflt)
    rw [getD_drop] at this
    exact this
  constructor
  · rw [advance_multi_success w₁ h1s hi hf]
    refine ⟨hi, ?_, ?_, ?_, ?_⟩
    · show w₁.current_index + w₁.current_length
        + (findBreakAux (w₁.buffer.drop (w₁.current_index + w₁.current_length)) + 1)
        ≤ w₁.buffer.length
      omega
    · show 1 ≤ findBreakAux (w₁.buffer.drop (w₁.current_index + w₁.current_length)) + 1
      omega
    · show w₁.current_index + w₁.current_length
        + (findBreakAux (w₁.buffer.drop (w₁.current_index + w₁.current_length)) + 1) - 1
        < w₁.buffer.length
      omega
    · show (w₁.buffer.getD (w₁.current_index + w₁.current_length
        + (findBreakAux (w₁.buffer.drop (w₁.current_index + w₁.current_length)) + 1) - 1)
        BreakClass.other).isBreak = true
      have hx : w₁.current_index + w₁.current_length
          + (findBreakAux (w₁.buffer.drop (w₁.current_index + w₁.current_length)) + 1) - 1
          = w₁.current_index + w₁.current_length
          + findBreakAux (w₁.buffer.drop (w₁.current_index + w₁.current_length)) := by
        omega
      rw [hx]
      exact hbrk
  · have hnb : ∀ c ∈ w₂.buffer.drop (w₂.current_index + w₂.current_length),
        c.isBreak = false := by
      intro c hc
      obtain ⟨k, hk, hck⟩ := List.getElem_of_mem hc
      have hklen : k < w₂.buffer.length - (w₂.current_index + w₂.current_length) := by
        have hx : (w₂.buffer.drop (w₂.current_index + w₂.current_length)).length
            = w₂.buffer.length - (w₂.current_index + w₂.current_length) := by simp
        omega
      have hgd : (w₂.buffer.drop (w₂.current_index + w₂.current_length)).getD k
          BreakClass.other = c := by
        rw [List.getD_eq_getElem _ _ (by simp; omega)]
        exact hck
      rw [getD_drop] at hgd
      have := h2n (w₂.current_index + w₂.current_length + k) (by omega) (by omega)
      rw [hgd] at this
      exact this
    have hfa : findBreakAux (w₂.buffer.drop (w₂.current_index + w₂.current_length))
        = w₂.buffer.length - (w₂.current_index + w₂.current_length) := by
      rw [findBreakAux_of_no_break _ hnb]
      simp
    rw [advance_multi_success w₂ h2s h2i h2f]
    refine ⟨rfl, ?_, ?_⟩
    · show w₂.current_index + w₂.current_length
        + (findBreakAux (w₂.buffer.drop (w₂.current_index + w₂.current_length)) + 1)
        = w₂.buffer.length + 1
      omega
    · show ¬ (w₂.current_index + w₂.current_length
        + (findBreakAux (w₂.buffer.drop (w₂.current_index + w₂.current_length)) + 1) - 1
        < w₂.buffer.length)
      omega

/-- Witness for claim C9: a two-byte buffer ending in a must-break yields an
in-bounds span end, while a one-byte buffer with no break class yields a
span end one past the end of the buffer. -/
theorem claim_C9_witness :
    ((WordEnumerator.init [BreakClass.other, BreakClass.mustBreak] false).advance).2.mustBreakReadIndex
        < (WordEnumerator.init [BreakClass.other, BreakClass.mustBreak] false).buffer.length ∧
    ((WordEnumerator.init [BreakClass.other] false).advance).2.current_index
      + ((WordEnumerator.init [BreakClass.other] false).advance).2.current_length
        = (WordEnumerator.init [BreakClass.other] false).buffer.length + 1 := by
  have h := claim_C9
    (WordEnumerator.init [BreakClass.other, BreakClass.mustBreak] false)
    (WordEnumerator.init [BreakClass.other] false)
    rfl (by decide) (by decide) (by decide) rfl rfl (by decide)
    (by
      intro j hj1 hj2
      have hj0 : j = 0 := by
        simp [WordEnumerator.init] at hj2
        omega
      subst hj0
      decide)
  exact ⟨h.1.2.2.2.1, h.2.2.1⟩

/-- Counterexample to claim C4 as stated.  First scenario: slack
`s = 11 - 0 = 11` and `b = 4` word boundaries give the per-boundary
increment `11 tdiv 3 = 3`; the summed per-boundary offsets reach only `9`
(the displacement of the last glyph), missing the slack by `2` — more than
one unit of integer rounding.  Second scenario: a line with a single word
boundary, justify bit set and left base alignment is shifted by the whole
slack `5`, not to the left-aligned position `0`. -/
theorem claim_C4_counterexample :
    (((lineBuf4.updateLine (paramsJustify 11) TextLayoutDirection.ltr 0
          false).vertices.getD 12 defaultVertex).posX = (9 : Rat) ∧
      (paramsJustify 11).sizeX - 0 = (11 : Int) ∧
      ¬ ((11 : Int) - 9 ≤ 1)) ∧
    (((lineBuf1.updateLine (paramsJustify 5) TextLayoutDirection.ltr 0
          false).vertices.getD 0 defaultVertex).posX = (5 : Rat) ∧
      (5 : Rat) ≠ 0) := by
  constructor
  · refine ⟨?_, by decide, by decide⟩
    have h := (updateLine_justify_eval (paramsJustify 11) TextLayoutDirection.ltr
      0 lineBuf4 (by decide) (Or.inl rfl) (by decide) (by decide) (by decide)
      (by decide) (by decide) (by decide) (by decide) (by decide) (by decide)
      (by decide) (by decide)).1 12 (by decide)
    rw [if_pos (by decide)] at h
    rw [h]
    have ho : ((if TextLayoutDirection.ltr = TextLayoutDirection.rtl
          then (-1 : Int) else 1)
        * Int.tdiv ((paramsJustify 11).sizeX - 0)
            ((lineBuf4.word_boundary.length : Int) - 1)
        * (cntLt lineBuf4.word_boundary (12 / 4 + 1) : Int)) = 9 := by decide
    rw [ho]
    simp [shiftX, lineBuf4, defaultVertex, FontBuffer.mk0]
  · refine ⟨?_, by decide⟩
    have h := updateLine_degrade_eval (paramsJustify 5) TextLayoutDirection.ltr
      0 lineBuf1 (by decide) (Or.inl rfl) (by decide) (by decide) (by decide)
      (by decide) 0 (by decide)
    rw [if_pos (by decide)] at h
    rw [h]
    have ho : ((if TextLayoutDirection.ltr = TextLayoutDirection.rtl
          then (-1 : Int) else 1) * ((paramsJustify 5).sizeX - 0)) = 5 := by decide
    rw [ho]
    simp [shiftX, lineBuf1, defaultVertex, FontBuffer.mk0]

/-- Claim C4 (amended): for a committed non-final line with justification
requested and more than one recorded word boundary `b`, every word boundary
adds an incremental offset of `s tdiv (b - 1)` (integer division of the
slack `s = target_width - line_width`) applied to all subsequent glyphs and
carets of the line, and the offsets are sign-flipped for right-to-left
direction.  The sum of the applied per-boundary offsets equals
`(b - 1) * (s tdiv (b - 1)) = s - s % (b - 1)`, which can fall short of `s`
by up to `b - 2` units — not within one unit of rounding in general.  If the
line has at most one word boundary, justification degrades to the
plain-alignment path applied with the full slack: for a left base alignment
the whole line is shifted by `s` (a right-flush placement, not left
alignment).  The final line of a buffer is never justified: with a left base
alignment, `UpdateLine` with `last_line = true` moves no geometry. -/
theorem claim_C4_amended (params : FontBufferParameters)
    (dir : TextLayoutDirection) (lw : Int) (b : FontBuffer)
    (hj : params.text_alignment.justify = true)
    (hdir : dir = TextLayoutDirection.ltr ∨ dir = TextLayoutDirection.rtl)
    (hp : List.Pairwise (· < ·) b.word_boundary)
    (hblen : 1 < b.word_boundary.length)
    (hlastb : b.word_boundary.getLast? = some b.code_points.length)
    (hgeb : ∀ e ∈ b.word_boundary, b.line_start_index ≤ e)
    (hLn : b.line_start_index ≤ b.code_points.length)
    (hvlen : b.vertices.length = 4 * b.code_points.length)
    (hslack : 0 ≤ params.sizeX - lw)
    (hci : b.has_caret_info = true)
    (hpc : List.Pairwise (· < ·) b.word_boundary_caret)
    (hlastc : b.word_boundary_caret.getLast? = some b.caret_positions.length)
    (hgec : ∀ e ∈ b.word_boundary_caret, b.line_start_caret_index ≤ e)
    (hLnc : b.line_start_caret_index ≤ b.caret_positions.length)
    (db : FontBuffer) (dparams : FontBufferParameters) (dlw : Int)
    (hdj : dparams.text_alignment.justify = true)
    (hdwb : db.word_boundary.length ≤ 1)
    (hdal : dparams.text_alignment.base = TextAlignmentBase.left)
    (hdLn : db.line_start_index ≤ db.code_points.length)
    (hdvlen : db.vertices.length = 4 * db.code_points.length)
    (eb : FontBuffer) (eparams : FontBufferParameters) (elw : Int)
    (edir : TextLayoutDirection)
    (heal : eparams.text_alignment.base = TextAlignmentBase.left) :
    (∀ j, j < 4 * b.code_points.length →
      (b.updateLine params dir lw false).vertices.getD j defaultVertex
        = if 4 * b.line_start_index ≤ j then
            shiftX ((if dir = TextLayoutDirection.rtl then (-1 : Int) else 1)
                * Int.tdiv (params.sizeX - lw) ((b.word_boundary.length : Int) - 1)
                * (cntLt b.word_boundary (j / 4 + 1) : Int))
              (b.vertices.getD j defaultVertex)
          else b.vertices.getD j defaultVertex) ∧
    (∀ j, j < b.caret_positions.length →
      (b.updateLine params dir lw false).caret_positions.getD j (0, 0)
        = if b.line_start_caret_index ≤ j then
            shiftCaret ((if dir = TextLayoutDirection.rtl then (-1 : Int) else 1)
                * Int.tdiv (params.sizeX - lw) ((b.word_boundary.length : Int) - 1)
                * (cntLt b.word_boundary_caret (j + 1) : Int))
              (b.caret_positions.getD j (0, 0))
          else b.caret_positions.getD j (0, 0)) ∧
    ((cntLt b.word_boundary b.code_points.length : Int)
        = (b.word_boundary.length : Int) - 1 ∧
      Int.tdiv (params.sizeX - lw) ((b.word_boundary.length : Int) - 1)
          * ((b.word_boundary.length : Int) - 1)
        = (params.sizeX - lw) - (params.sizeX - lw) % ((b.word_boundary.length : Int) - 1)) ∧
    (∀ j, j < 4 * db.code_points.length →
      (db.updateLine dparams TextLayoutDirection.ltr dlw false).vertices.getD j
          defaultVertex
        = if 4 * db.line_start_index ≤ j then
            shiftX (dparams.sizeX - dlw) (db.vertices.getD j defaultVertex)
          else db.vertices.getD j defaultVertex) ∧
    (eb.updateLine eparams edir elw true).vertices = eb.vertices := by
  obtain ⟨hvert, hcar⟩ := updateLine_justify_eval params dir lw b hj hdir hp
    hblen hlastb hgeb hLn hvlen hci hpc hlastc hgec hLnc
  refine ⟨hvert, hcar, ⟨?_, ?_⟩, ?_, ?_⟩
  · rw [cntLt_last b.word_boundary b.code_points.length hp hlastb]
    have : 1 ≤ b.word_boundary.length := by omega
    push_cast [this]
    ring
  · have hd : (0 : Int) < (b.word_boundary.length : Int) - 1 := by
      have : (2 : Int) ≤ (b.word_boundary.length : Int) := by exact_mod_cast hblen
      omega
    rw [Int.tdiv_eq_ediv hslack (by omega)]
    have h := Int.ediv_add_emod (params.sizeX - lw) ((b.word_boundary.length : Int) - 1)
    rw [mul_comm]
    linarith [h]
  · intro j hj2
    have h := updateLine_degrade_eval dparams TextLayoutDirection.ltr dlw db hdj
      (Or.inl rfl) hdwb hdal hdLn hdvlen j hj2
    rw [h]
    by_cases hc : 4 * db.line_start_index ≤ j
    · rw [if_pos hc, if_pos hc]
      have : ((if TextLayoutDirection.ltr = TextLayoutDirection.rtl
          then (-1 : Int) else 1) * (dparams.sizeX - dlw)) = dparams.sizeX - dlw := by
        simp
      rw [this]
    · rw [if_neg hc, if_neg hc]
  · exact (updateLine_lastline_eval eparams edir elw eb heal).1

/-- Witness for claim C4 (amended), at the concrete four-glyph line with
boundaries `[1,2,3,4]`, slack 11 and direction LTR: the boundary count at
the end of the line is `b - 1 = 3` and the summed per-boundary offsets are
`3 * (11 tdiv 3) = 9 = 11 - 11 % 3`. -/
theorem claim_C4_amended_witness :
    (cntLt lineBuf4.word_boundary lineBuf4.code_points.length : Int)
        = (lineBuf4.word_boundary.length : Int) - 1 ∧
    Int.tdiv ((paramsJustify 11).sizeX - 0) ((lineBuf4.word_boundary.length : Int) - 1)
        * ((lineBuf4.word_boundary.length : Int) - 1)
      = ((paramsJustify 11).sizeX - 0)
        - ((paramsJustify 11).sizeX - 0) % ((lineBuf4.word_boundary.length : Int) - 1) :=
  (claim_C4_amended (paramsJustify 11) TextLayoutDirection.ltr 0 lineBuf4
    (by decide) (Or.inl rfl) (by decide) (by decide) (by decide) (by decide)
    (by decide) (by decide) (by decide) (by decide) (by decide) (by decide)
    (by decide) (by decide)
    lineBuf1 (paramsJustify 5) 0 (by decide) (by decide) (by decide)
    (by decide) (by decide)
    lineBuf1 (paramsJustify 5) 0 TextLayoutDirection.ltr (by decide)).2.2.1

/-- Counterexample to claim C5 as stated: in a state already inside its
first subpass (`current_pass_ = 1`), `UpdatePass(start_subpass = true)`
still flushes the glyph atlas — `glyph_cache_->Flush()` at line 881 runs
unconditionally; the `current_pass_ > 0` test at line 874 only gates the
warning.  The claim's "proceeds without flushing the atlas again
mid-frame" is false. -/
theorem claim_C5_counterexample :
    0 < stPass1.current_pass ∧
    (updatePass true stPass1).flush_count = stPass1.flush_count + 1 ∧
    (updatePass true stPass1).cache.revision = stPass1.cache.revision + 1 := by
  decide

/-- Claim C5 (amended): for every `UpdatePass(start_subpass = true)` call, a
configuration warning is reported exactly when this is not the first
subpass of the frame (`current_pass_ > 0`), and the atlas is flushed
unconditionally — once per call, also on a second subpass within the same
frame — after which the revision snapshot matches the cache and the pass
counter advances by one; `UpdatePass(start_subpass = false)` performs no
flush and enters the terminal render pass. -/
theorem claim_C5_amended (st : FontManagerState) :
    ((updatePass true st).flush_count = st.flush_count + 1 ∧
     (updatePass true st).warnings
        = st.warnings + (if 0 < st.current_pass then 1 else 0) ∧
     (updatePass true st).current_pass = st.current_pass + 1 ∧
     (updatePass true st).current_atlas_revision
        = (updatePass true st).cache.revision) ∧
    ((updatePass false st).flush_count = st.flush_count ∧
     (updatePass false st).cache.revision = st.cache.revision ∧
     (updatePass false st).current_pass = kRenderPass) := by
  by_cases h1 : st.cache.dirty = true ∧ st.current_pass ≤ 0 <;>
    by_cases h2 : 0 < st.current_pass <;>
      simp [updatePass, h1, h2, GlyphCache.update, GlyphCache.flush]

theorem mlookup_mupdate_self (k : FontBufferParameters) (v w : FontBuffer)
    (m : List (FontBufferParameters × FontBuffer))
    (h : mlookup k m = some w) : mlookup k (mupdate k v m) = some v := by
  induction m with
  | nil => simp [mlookup] at h
  | cons p rest ih =>
    obtain ⟨pk, pv⟩ := p
    by_cases hpk : pk = k
    · simp [mlookup, mupdate, hpk]
    · simp only [mlookup, mupdate, if_neg hpk] at h ⊢
      exact ih h

theorem mlookup_not_mem (k : FontBufferParameters)
    (m : List (FontBufferParameters × FontBuffer))
    (h : k ∉ m.map Prod.fst) : mlookup k m = none := by
  induction m with
  | nil => rfl
  | cons p rest ih =>
    obtain ⟨pk, pv⟩ := p
    simp only [List.map_cons, List.mem_cons] at h
    push_neg at h
    simp only [mlookup]
    rw [if_neg (fun hcon => h.1 hcon.symm)]
    exact ih h.2

theorem mlookup_merase_self (k : FontBufferParameters)
    (m : List (FontBufferParameters × FontBuffer))
    (hnd : (m.map Prod.fst).Nodup) : mlookup k (merase k m) = none := by
  induction m with
  | nil => rfl
  | cons p rest ih =>
    obtain ⟨pk, pv⟩ := p
    rw [List.map_cons, List.nodup_cons] at hnd
    by_cases hpk : pk = k
    · subst hpk
      simp only [merase, if_pos rfl]
      exact mlookup_not_mem pk rest hnd.1
    · simp only [merase, if_neg hpk, mlookup]
      exact ih hnd.2

theorem mupdate_length (k : FontBufferParameters) (v : FontBuffer)
    (m : List (FontBufferParameters × FontBuffer)) :
    (mupdate k v m).length = m.length := by
  induction m with
  | nil => rfl
  | cons p rest ih =>
    obtain ⟨pk, pv⟩ := p
    by_cases hpk : pk = k <;> simp [mupdate, hpk, ih]

/-- Claim C7: `ReleaseBuffer` on a buffer with `ref_count ≥ 1` (the
source's assertion; releasing at zero is a contract violation, not a
runtime condition) decrements the count by exactly one; when the count
reaches zero, the buffer's cache-row references are released and its
deduplication-map entry is erased; otherwise the buffer stays mapped with
one fewer reference, never going below zero (`b2.ref_count + 1 =
buf.ref_count` is exact arithmetic, no wrap). -/
theorem claim_C7 (st : FontManagerState) (params : FontBufferParameters)
    (buf : FontBuffer)
    (hnd : (st.map_buffers.map Prod.fst).Nodup)
    (hlook : mlookup params st.map_buffers = some buf)
    (href : 1 ≤ buf.ref_count) :
    (buf.ref_count = 1 →
      mlookup params (releaseBuffer params st).map_buffers = none ∧
      (releaseBuffer params st).row_ref_releases = st.row_ref_releases + 1) ∧
    (2 ≤ buf.ref_count →
      ∃ b2, mlookup params (releaseBuffer params st).map_buffers = some b2 ∧
        b2.ref_count + 1 = buf.ref_count ∧ 1 ≤ b2.ref_count ∧
        (releaseBuffer params st).row_ref_releases = st.row_ref_releases) := by
  constructor
  · intro hone
    have hcond : buf.ref_count - 1 = 0 := by omega
    simp only [releaseBuffer, hlook]
    rw [if_pos hcond]
    exact ⟨mlookup_merase_self params st.map_buffers hnd, rfl⟩
  · intro htwo
    have hcond : ¬ (buf.ref_count - 1 = 0) := by omega
    simp only [releaseBuffer, hlook]
    rw [if_neg hcond]
    refine ⟨{ buf with ref_count := buf.ref_count - 1 },
      mlookup_mupdate_self params _ buf st.map_buffers hlook, ?_, ?_, rfl⟩
    · show buf.ref_count - 1 + 1 = buf.ref_count
      omega
    · show 1 ≤ buf.ref_count - 1
      omega

/-- Witness for claim C7: releasing the singly-referenced `relBuf` erases
its map entry and releases its cache-row references. -/
theorem claim_C7_witness :
    mlookup paramsW (releaseBuffer paramsW relState).map_buffers = none ∧
    (releaseBuffer paramsW relState).row_ref_releases
      = relState.row_ref_releases + 1 :=
  (claim_C7 relState paramsW relBuf (by decide) (by decide) (by decide)).1
    (by decide)

theorem updAt_getD_proj {α : Type} (f : α → α) (pr : α → Rat) (n j : Nat)
    (l : List α) (d : α) (hf : ∀ v, pr (f v) = pr v) :
    pr ((updAt f n l).getD j d) = pr (l.getD j d) := by
  by_cases hj : j = n
  · subst hj
    by_cases hl : j < l.length
    · rw [updAt_getD_eq f j l d hl, hf]
    · rw [List.getD_eq_default, List.getD_eq_default]
      · omega
      · rw [updAt_length]
        omega
  · rw [updAt_getD_ne f n j l d hj]

theorem updateUVAt_posX (b : FontBuffer) (i : Nat) (uv : UvRect) (j : Nat) :
    ((b.updateUVAt i uv).vertices.getD j defaultVertex).posX
      = (b.vertices.getD j defaultVertex).posX := by
  simp only [FontBuffer.updateUVAt]
  rw [updAt_getD_proj (fun v => { v with uvX := uv.z, uvY := uv.w })
      FontVertex.posX _ _ _ _ (fun v => rfl),
    updAt_getD_proj (fun v => { v with uvX := uv.z, uvY := uv.y })
      FontVertex.posX _ _ _ _ (fun v => rfl),
    updAt_getD_proj (fun v => { v with uvX := uv.x, uvY := uv.w })
      FontVertex.posX _ _ _ _ (fun v => rfl),
    updAt_getD_proj (fun v => { v with uvX := uv.x, uvY := uv.y })
      FontVertex.posX _ _ _ _ (fun v => rfl)]

theorem updateUVAt_posY (b : FontBuffer) (i : Nat) (uv : UvRect) (j : Nat) :
    ((b.updateUVAt i uv).vertices.getD j defaultVertex).posY
      = (b.vertices.getD j defaultVertex).posY := by
  simp only [FontBuffer.updateUVAt]
  rw [updAt_getD_proj (fun v => { v with uvX := uv.z, uvY := uv.w })
      FontVertex.posY _ _ _ _ (fun v => rfl),
    updAt_getD_proj (fun v => { v with uvX := uv.z, uvY := uv.y })
      FontVertex.posY _ _ _ _ (fun v => rfl),
    updAt_getD_proj (fun v => { v with uvX := uv.x, uvY := uv.w })
      FontVertex.posY _ _ _ _ (fun v => rfl),
    updAt_getD_proj (fun v => { v with uvX := uv.x, uvY := uv.y })
      FontVertex.posY _ _ _ _ (fun v => rfl)]

theorem updateUVLoop_shape (ctx : FmCtx) (ysize : Int) (flags : Nat)
    (cps : List Nat) : ∀ (i : Nat) (buf : FontBuffer) (c : GlyphCache),
    ((updateUVLoop ctx ysize flags cps i buf c).2.1.vertices.length
        = buf.vertices.length) ∧
    (∀ j, ((updateUVLoop ctx ysize flags cps i buf c).2.1.vertices.getD j
        defaultVertex).posX = (buf.vertices.getD j defaultVertex).posX) ∧
    (∀ j, ((updateUVLoop ctx ysize flags cps i buf c).2.1.vertices.getD j
        defaultVertex).posY = (buf.vertices.getD j defaultVertex).posY) ∧
    (updateUVLoop ctx ysize flags cps i buf c).2.1.caret_positions
        = buf.caret_positions ∧
    (updateUVLoop ctx ysize flags cps i buf c).2.1.code_points
        = buf.code_points ∧
    ((updateUVLoop ctx ysize flags cps i buf c).1 = true → cps ≠ [] →
      (updateUVLoop ctx ysize flags cps i buf c).2.1.revision
        = (updateUVLoop ctx ysize flags cps i buf c).2.2.revision) := by
  induction cps with
  | nil =>
    intro i buf c
    exact ⟨rfl, fun j => rfl, fun j => rfl, rfl, rfl,
      fun _ hne => absurd rfl hne⟩
  | cons cp rest ih =>
    intro i buf c
    simp only [updateUVLoop]
    rcases hf : ctx.fetch ⟨ctx.font_id, cp, ysize, flags⟩ c with ⟨o, c2⟩
    cases o with
    | none =>
      exact ⟨rfl, fun j => rfl, fun j => rfl, rfl, rfl,
        fun hok _ => absurd hok (by simp)⟩
    | some entry =>
      have iha := ih (i + 1)
        { (buf.updateUVAt i entry.uv) with revision := c2.revision } c2
      refine ⟨?_, ?_, ?_, ?_, ?_, ?_⟩
      · rw [iha.1]
        simp only [FontBuffer.updateUVAt]
        simp [updAt_length]
      · intro j
        rw [iha.2.1 j]
        exact updateUVAt_posX buf i entry.uv j
      · intro j
        rw [iha.2.2.1 j]
        exact updateUVAt_posY buf i entry.uv j
      · rw [iha.2.2.2.1]
        rfl
      · rw [iha.2.2.2.2.1]
        rfl
      · intro hok hne
        cases rest with
        | nil => rfl
        | cons cp2 rest2 =>
          exact iha.2.2.2.2.2 hok (by simp)

theorem updateUVLoop_ok (ctx : FmCtx) (ysize : Int) (flags : Nat)
    (hfs : ∀ k c, ((ctx.fetch k c).1).isSome = true) (cps : List Nat) :
    ∀ (i : Nat) (buf : FontBuffer) (c : GlyphCache),
    (updateUVLoop ctx ysize flags cps i buf c).1 = true := by
  induction cps with
  | nil => intro i buf c; rfl
  | cons cp rest ih =>
    intro i buf c
    simp only [updateUVLoop]
    rcases hf : ctx.fetch ⟨ctx.font_id, cp, ysize, flags⟩ c with ⟨o, c2⟩
    cases o with
    | none =>
      have := hfs ⟨ctx.font_id, cp, ysize, flags⟩ c
      rw [hf] at this
      exact absurd this (by simp)
    | some entry => exact ih (i + 1) _ c2

theorem updateUVLoop_fail (ctx : FmCtx) (ysize : Int) (flags : Nat)
    (hfail : ∀ k c, (ctx.fetch k c).1 = none) (cp : Nat) (rest : List Nat)
    (i : Nat) (buf : FontBuffer) (c : GlyphCache) :
    (updateUVLoop ctx ysize flags (cp :: rest) i buf c).1 = false := by
  simp only [updateUVLoop]
  have hp : ctx.fetch ⟨ctx.font_id, cp, ysize, flags⟩ c
      = (none, (ctx.fetch ⟨ctx.font_id, cp, ysize, flags⟩ c).2) := by
    rw [← hfail ⟨ctx.font_id, cp, ysize, flags⟩ c]
  rw [hp]

/-- Counterexample to claim C6 as stated: a stale buffer that records no
code points (as produced by whitespace-only text, whose zero-sized glyphs
record nothing) is returned by `UpdateUV` with its revision untouched — the
`set_revision` call sits inside the per-code-point loop (line 576), so the
buffer's revision is not updated to the cache revision and the buffer stays
stale. -/
theorem claim_C6_counterexample :
    (FontBuffer.mk0 false).revision ≠ uvState5.current_atlas_revision ∧
    (updateUVm ctxW 12 0 paramsW (FontBuffer.mk0 false) uvState5).1
        = some (FontBuffer.mk0 false) ∧
    (updateUVm ctxW 12 0 paramsW (FontBuffer.mk0 false) uvState5).2.cache.revision
        = 5 ∧
    (FontBuffer.mk0 false).revision ≠ 5 := by
  decide

/-- Claim C6 (amended): for every buffer whose revision is stale relative to
the atlas snapshot, `UpdateUV` re-resolves the recorded code points against
the cache and rewrites only UV data: vertex positions (x and y of every
vertex) and caret positions are unchanged and the vertex count is
preserved; when the buffer records at least one code point, its revision is
updated to the cache revision (with no recorded code points the revision
stays stale, since the revision write sits inside the loop).  `UpdateUV`
succeeds whenever every fetch succeeds, and returns null (propagating
cache-full) when the cache cannot re-resolve, in particular whenever the
fetch oracle reports cache-full and at least one code point is recorded. -/
theorem claim_C6_amended (ctx : FmCtx) (ysize : Int) (flags : Nat)
    (key : FontBufferParameters) (buf : FontBuffer) (st : FontManagerState)
    (hstale : buf.revision ≠ st.current_atlas_revision) :
    (∀ b2, (updateUVm ctx ysize flags key buf st).1 = some b2 →
      b2.vertices.length = buf.vertices.length ∧
      (∀ j, (b2.vertices.getD j defaultVertex).posX
          = (buf.vertices.getD j defaultVertex).posX ∧
        (b2.vertices.getD j defaultVertex).posY
          = (buf.vertices.getD j defaultVertex).posY) ∧
      b2.caret_positions = buf.caret_positions ∧
      b2.code_points = buf.code_points ∧
      (buf.code_points ≠ [] →
        b2.revision = (updateUVm ctx ysize flags key buf st).2.cache.revision)) ∧
    ((∀ k c, ((ctx.fetch k c).1).isSome = true) →
      ((updateUVm ctx ysize flags key buf st).1).isSome = true) ∧
    ((∀ k c, (ctx.fetch k c).1 = none) → buf.code_points ≠ [] →
      (updateUVm ctx ysize flags key buf st).1 = none) := by
  simp only [updateUVm, if_pos hstale]
  rcases hl : updateUVLoop ctx ysize flags buf.code_points 0 buf st.cache
    with ⟨ok, b2, c2⟩
  have hs := updateUVLoop_shape ctx ysize flags buf.code_points 0 buf st.cache
  rw [hl] at hs
  refine ⟨?_, ?_, ?_⟩
  · intro b3 hsome
    cases ok with
    | false => exact absurd hsome (by simp)
    | true =>
      have hb : b2 = b3 := by
        simpa using hsome
      subst hb
      exact ⟨hs.1, fun j => ⟨hs.2.1 j, hs.2.2.1 j⟩, hs.2.2.2.1,
        hs.2.2.2.2.1, fun hne => hs.2.2.2.2.2 rfl hne⟩
  · intro hfs
    have := updateUVLoop_ok ctx ysize flags hfs buf.code_points 0 buf st.cache
    rw [hl] at this
    subst this
    simp
  · intro hfail hne
    cases hcp : buf.code_points with
    | nil => exact absurd hcp hne
    | cons cp rest =>
      have := updateUVLoop_fail ctx ysize flags hfail cp rest 0 buf st.cache
      rw [← hcp, hl] at this
      subst this
      simp

/-- Witness for claim C6 (amended): a stale buffer with one recorded code
point and an always-full cache oracle makes `UpdateUV` return null. -/
theorem claim_C6_amended_witness :
    (updateUVm ctxW 12 0 paramsW uvBufOne uvState5).1 = none :=
  (claim_C6_amended ctxW 12 0 paramsW uvBufOne uvState5 (by decide)).2.2
    (fun k c => rfl) (by decide)

theorem iterateWords_succ (ctx : FmCtx) (params : FontBufferParameters)
    (cy : Int) (sc : Rat) (bl : Int) (dir : TextLayoutDirection)
    (ps lh : Rat) (fuel : Nat) (w : WordEnumerator) (s : LoopSt) :
    iterateWords ctx params cy sc bl dir ps lh (fuel + 1) w s
      = match w.advance with
        | (false, _) => (true, s)
        | (true, w2) =>
          match stepLine ctx params sc dir ps lh w2 s with
          | (none, s2) => (true, s2)
          | (some gs, s2) =>
            match wordBody ctx params cy sc bl dir w2 gs s2 with
            | (false, s3) => (false, s3)
            | (true, s3) =>
              iterateWords ctx params cy sc bl dir ps lh fuel w2 s3 := rfl

theorem stepLine_some (ctx : FmCtx) (params : FontBufferParameters)
    (sc : Rat) (dir : TextLayoutDirection) (ps lh : Rat)
    (w2 : WordEnumerator) (s : LoopSt) (hsy : params.sizeY = 0) :
    (stepLine ctx params sc dir ps lh w2 s).1
      = some (if params.multi_line = false then ctx.shape 0 ctx.text_length
              else ctx.shape w2.current_index w2.current_length) := by
  by_cases hm : params.multi_line = false
  · simp [stepLine, hm]
  · simp only [stepLine, if_neg hm]
    split
    · split
      · next hcond =>
          exact absurd hcond.1 (by simp [hsy])
      · rfl
    · rfl

theorem exists_ordinal (gs : List ShapedGlyph) (dir : TextLayoutDirection)
    (hex : ∃ g ∈ gs, g.codepoint ≠ 0) :
    ∃ i ∈ List.range gs.length,
      (gs.getD (if dir = TextLayoutDirection.rtl then gs.length - 1 - i else i)
        defaultShaped).codepoint ≠ 0 := by
  obtain ⟨g, hg, hcp⟩ := hex
  obtain ⟨k, hk, hgk⟩ := List.getElem_of_mem hg
  by_cases hdir : dir = TextLayoutDirection.rtl
  · refine ⟨gs.length - 1 - k, List.mem_range.mpr (by omega), ?_⟩
    rw [if_pos hdir]
    have hix : gs.length - 1 - (gs.length - 1 - k) = k := by omega
    rw [hix, List.getD_eq_getElem _ _ hk, hgk]
    exact hcp
  · refine ⟨k, List.mem_range.mpr hk, ?_⟩
    rw [if_neg hdir, List.getD_eq_getElem _ _ hk, hgk]
    exact hcp

theorem emitGlyphs_fail (ctx : FmCtx) (params : FontBufferParameters)
    (cy : Int) (sc : Rat) (bl : Int) (dir : TextLayoutDirection)
    (gs : List ShapedGlyph)
    (hfail : ∀ k c, (ctx.fetch k c).1 = none) :
    ∀ (llmb : Bool) (w : WordEnumerator) (is : List Nat) (s : LoopSt),
    (∃ i ∈ is, (gs.getD
        (if dir = TextLayoutDirection.rtl then gs.length - 1 - i else i)
        defaultShaped).codepoint ≠ 0) →
    (emitGlyphs ctx params cy sc bl dir llmb w gs is s).1 = false := by
  intro llmb w is
  induction is with
  | nil =>
    intro s hex
    simp at hex
  | cons i rest ih =>
    intro s hex
    simp only [emitGlyphs]
    by_cases hz : (gs.getD
        (if dir = TextLayoutDirection.rtl then gs.length - 1 - i else i)
        defaultShaped).codepoint = 0
    · rw [if_pos hz]
      apply ih
      obtain ⟨i0, hi0, hcp⟩ := hex
      rcases List.mem_cons.mp hi0 with rfl | hm
      · exact absurd hz hcp
      · exact ⟨i0, hm, hcp⟩
    · rw [if_neg hz]
      split
      · rfl
      · next entry c2 heq =>
          have hthis := hfail ⟨ctx.font_id,
            (gs.getD (if dir = TextLayoutDirection.rtl then gs.length - 1 - i
              else i) defaultShaped).codepoint, cy, params.glyph_flags⟩ s.cache
          rw [heq] at hthis
          exact absurd hthis (by simp)

theorem wordBody_fail (ctx : FmCtx) (params : FontBufferParameters)
    (cy : Int) (sc : Rat) (bl : Int) (dir : TextLayoutDirection)
    (w2 : WordEnumerator) (gs : List ShapedGlyph)
    (hfail : ∀ k c, (ctx.fetch k c).1 = none)
    (hex : ∃ g ∈ gs, g.codepoint ≠ 0) (s : LoopSt) :
    (wordBody ctx params cy sc bl dir w2 gs s).1 = false := by
  simp only [wordBody]
  split
  · rfl
  · next s3 heq =>
      have h1 := congrArg Prod.fst heq
      rw [emitGlyphs_fail ctx params cy sc bl dir gs hfail] at h1
      · simp at h1
      · exact exists_ordinal gs dir hex

theorem iterateWords_abort (ctx : FmCtx) (params : FontBufferParameters)
    (cy : Int) (sc : Rat) (bl : Int) (dir : TextLayoutDirection)
    (ps lh : Rat) (w0 : WordEnumerator)
    (hfail : ∀ k c, (ctx.fetch k c).1 = none)
    (hsy : params.sizeY = 0)
    (hadv : (w0.advance).1 = true)
    (hex : ∃ g ∈ (if params.multi_line = false then ctx.shape 0 ctx.text_length
        else ctx.shape (w0.advance).2.current_index
          (w0.advance).2.current_length), g.codepoint ≠ 0) :
    ∀ (fuel : Nat) (s : LoopSt),
    (iterateWords ctx params cy sc bl dir ps lh (fuel + 1) w0 s).1 = false := by
  intro fuel s
  rw [iterateWords_succ]
  split
  · next heq =>
      rw [heq] at hadv
      exact absurd hadv (by simp)
  · next w2 heq =>
      have hw2 : (w0.advance).2 = w2 := by rw [heq]
      split
      · next s2 heq2 =>
          have hsl := stepLine_some ctx params sc dir ps lh w2 s hsy
          rw [heq2] at hsl
          exact absurd hsl (by simp)
      · next gs s2 heq2 =>
          have hsl := stepLine_some ctx params sc dir ps lh w2 s hsy
          rw [heq2] at hsl
          have hgs : gs = (if params.multi_line = false then
              ctx.shape 0 ctx.text_length
            else ctx.shape w2.current_index w2.current_length) := by
            simpa using hsl
          split
          · rfl
          · next s3 heq3 =>
              rw [hw2] at hex
              have hres := wordBody_fail ctx params cy sc bl dir w2 gs hfail
                (by rw [hgs]; exact hex) s2
              rw [heq3] at hres
              exact absurd hres (by simp)

/-- Aborting construction: with a dedup miss, a cache oracle that always
reports full, no height limit and a first word holding a visible glyph,
`CreateBuffer` returns null. -/
theorem createBuffer_abort (ctx : FmCtx) (params : FontBufferParameters)
    (st : FontManagerState)
    (hmiss : mlookup params st.map_buffers = none)
    (hfail : ∀ k c, (ctx.fetch k c).1 = none)
    (hsy : params.sizeY = 0)
    (hadv : ((WordEnumerator.init ctx.breaks (!params.multi_line)).advance).1
        = true)
    (hex : ∃ g ∈ (if params.multi_line = false then ctx.shape 0 ctx.text_length
        else ctx.shape
          ((WordEnumerator.init ctx.breaks (!params.multi_line)).advance).2.current_index
          ((WordEnumerator.init ctx.breaks (!params.multi_line)).advance).2.current_length),
      g.codepoint ≠ 0) :
    (createBuffer ctx params st).1 = none := by
  simp only [createBuffer, hmiss]
  have h2 : ctx.breaks.length + 2 = ctx.breaks.length + 1 + 1 := rfl
  rw [h2]
  split
  · rfl
  · next s1 heq =>
      have hres := iterateWords_abort ctx params (convertSize ctx params.font_size)
        ((params.font_size : Rat) / ((convertSize ctx params.font_size : Int) : Rat))
        ctx.base_line st.layout_direction
        (if st.layout_direction = TextLayoutDirection.rtl then (params.sizeX : Rat) else 0)
        ((params.font_size : Rat) * ctx.line_height_factor)
        (WordEnumerator.init ctx.breaks (!params.multi_line))
        hfail hsy hadv hex (ctx.breaks.length + 1)
      have h1 := congrArg Prod.fst heq
      rw [hres] at h1
      simp at h1

/-- C2: a fresh buffer construction (deduplication miss) that fails —
in particular because the atlas-cache fetch reports cache-full for every
glyph while a visible glyph must be emitted — returns null and leaves
`map_buffers_` unchanged; only a successful construction inserts its
(parameters, buffer) entry. -/
theorem claim_C2 (ctx : FmCtx) (params : FontBufferParameters)
    (st : FontManagerState)
    (hmiss : mlookup params st.map_buffers = none) :
    ((createBuffer ctx params st).1 = none →
      (createBuffer ctx params st).2.map_buffers = st.map_buffers) ∧
    (∀ b, (createBuffer ctx params st).1 = some b →
      (createBuffer ctx params st).2.map_buffers
        = (params, b) :: st.map_buffers) ∧
    ((∀ k c, (ctx.fetch k c).1 = none) → params.sizeY = 0 →
      ((WordEnumerator.init ctx.breaks (!params.multi_line)).advance).1
        = true →
      (∃ g ∈ (if params.multi_line = false then
            ctx.shape 0 ctx.text_length
          else ctx.shape
            ((WordEnumerator.init ctx.breaks (!params.multi_line)).advance).2.current_index
            ((WordEnumerator.init ctx.breaks (!params.multi_line)).advance).2.current_length),
        g.codepoint ≠ 0) →
      (createBuffer ctx params st).1 = none) := by
  refine ⟨?_, ?_, ?_⟩
  · intro h1
    simp only [createBuffer, hmiss] at h1 ⊢
    split
    · rfl
    · next s1 heq =>
        rw [heq] at h1
        simp at h1
  · intro b hb
    simp only [createBuffer, hmiss] at hb ⊢
    split
    · next s1 heq =>
        rw [heq] at hb
        simp at hb
    · next s1 heq =>
        rw [heq] at hb
        simp only [Option.some.injEq] at hb
        rw [hb]
  · intro hfail hsy hadv hex
    exact createBuffer_abort ctx params st hmiss hfail hsy hadv hex

/-- Witness for C2 at the concrete always-full cache context. -/
theorem claim_C2_witness :
    mlookup paramsW stW.map_buffers = none ∧
    (((createBuffer ctxW paramsW stW).1 = none →
      (createBuffer ctxW paramsW stW).2.map_buffers = stW.map_buffers) ∧
    (∀ b, (createBuffer ctxW paramsW stW).1 = some b →
      (createBuffer ctxW paramsW stW).2.map_buffers
        = (paramsW, b) :: stW.map_buffers) ∧
    ((∀ k c, (ctxW.fetch k c).1 = none) → paramsW.sizeY = 0 →
      ((WordEnumerator.init ctxW.breaks (!paramsW.multi_line)).advance).1
        = true →
      (∃ g ∈ (if paramsW.multi_line = false then
            ctxW.shape 0 ctxW.text_length
          else ctxW.shape
            ((WordEnumerator.init ctxW.breaks (!paramsW.multi_line)).advance).2.current_index
            ((WordEnumerator.init ctxW.breaks (!paramsW.multi_line)).advance).2.current_length),
        g.codepoint ≠ 0) →
      (createBuffer ctxW paramsW stW).1 = none)) :=
  ⟨rfl, claim_C2 ctxW paramsW stW rfl⟩

theorem updateUVm_flush_count (ctx : FmCtx) (ysize : Int) (flags : Nat)
    (key : FontBufferParameters) (buf : FontBuffer) (st : FontManagerState) :
    (updateUVm ctx ysize flags key buf st).2.flush_count = st.flush_count := by
  simp only [updateUVm]
  split
  · rfl
  · rfl

theorem updateUVm_create_calls (ctx : FmCtx) (ysize : Int) (flags : Nat)
    (key : FontBufferParameters) (buf : FontBuffer) (st : FontManagerState) :
    (updateUVm ctx ysize flags key buf st).2.create_calls = st.create_calls := by
  simp only [updateUVm]
  split
  · rfl
  · rfl

theorem createBuffer_flush_count (ctx : FmCtx) (params : FontBufferParameters)
    (st : FontManagerState) :
    (createBuffer ctx params st).2.flush_count = st.flush_count := by
  simp only [createBuffer]
  split
  · split
    · next st2 heq2 =>
        have h2 := congrArg Prod.snd heq2
        rw [← h2, updateUVm_flush_count]
    · next b2 st2 heq2 =>
        have h2 := congrArg Prod.snd heq2
        show ((some b2, st2) : Option FontBuffer × FontManagerState).2.flush_count
          = st.flush_count
        rw [← h2, updateUVm_flush_count]
  · split
    · rfl
    · rfl

theorem createBuffer_create_calls (ctx : FmCtx) (params : FontBufferParameters)
    (st : FontManagerState) :
    (createBuffer ctx params st).2.create_calls = st.create_calls + 1 := by
  simp only [createBuffer]
  split
  · split
    · next st2 heq2 =>
        have h2 := congrArg Prod.snd heq2
        rw [← h2, updateUVm_create_calls]
    · next b2 st2 heq2 =>
        have h2 := congrArg Prod.snd heq2
        show ((some b2, st2) : Option FontBuffer × FontManagerState).2.create_calls
          = st.create_calls + 1
        rw [← h2, updateUVm_create_calls]
  · split
    · rfl
    · rfl

theorem flushAndUpdate_flush_count (st : FontManagerState) :
    (flushAndUpdate st).flush_count = st.flush_count + 1 := by
  simp only [flushAndUpdate, updatePass]
  split_ifs <;> simp_all

theorem flushAndUpdate_create_calls (st : FontManagerState) :
    (flushAndUpdate st).create_calls = st.create_calls := by
  simp only [flushAndUpdate, updatePass]
  split_ifs <;> simp_all

/-- C1: when the first internal construction fails, `GetBuffer` equals one
flush (`FlushAndUpdate`) followed by one retried construction — so failure
surfaces exactly when that retry fails — and the ghost counters certify
exactly one flush and exactly two construction attempts in total. -/
theorem claim_C1 (ctx : FmCtx) (params : FontBufferParameters)
    (st : FontManagerState)
    (hfail1 : (createBuffer ctx params st).1 = none) :
    getBuffer ctx params st
      = createBuffer ctx params (flushAndUpdate (createBuffer ctx params st).2) ∧
    (getBuffer ctx params st).2.flush_count = st.flush_count + 1 ∧
    (getBuffer ctx params st).2.create_calls = st.create_calls + 2 := by
  have hpair : createBuffer ctx params st
      = (none, (createBuffer ctx params st).2) := by rw [← hfail1]
  have hmain : getBuffer ctx params st
      = createBuffer ctx params (flushAndUpdate (createBuffer ctx params st).2) := by
    simp only [getBuffer]
    rw [hpair]
  refine ⟨hmain, ?_, ?_⟩
  · rw [hmain, createBuffer_flush_count, flushAndUpdate_flush_count,
      createBuffer_flush_count]
  · rw [hmain, createBuffer_create_calls, flushAndUpdate_create_calls,
      createBuffer_create_calls]

/-- Witness for C1: at the always-full cache context the first
construction fails, and `GetBuffer` is the single flush-and-retry. -/
theorem claim_C1_witness :
    (createBuffer ctxW paramsW stW).1 = none ∧
    (getBuffer ctxW paramsW stW
      = createBuffer ctxW paramsW
          (flushAndUpdate (createBuffer ctxW paramsW stW).2) ∧
    (getBuffer ctxW paramsW stW).2.flush_count = stW.flush_count + 1 ∧
    (getBuffer ctxW paramsW stW).2.create_calls = stW.create_calls + 2) :=
  have habort : (createBuffer ctxW paramsW stW).1 = none :=
    createBuffer_abort ctxW paramsW stW rfl (fun _ _ => rfl) rfl (by decide)
      ⟨⟨1, 64, 0, 0⟩, by decide, by decide⟩
  ⟨habort, claim_C1 ctxW paramsW stW habort⟩

theorem createBuffer_dedup (ctx : FmCtx) (params : FontBufferParameters)
    (st1 : FontManagerState) (b : FontBuffer)
    (hlook : mlookup params st1.map_buffers = some b)
    (hrev : b.revision = st1.current_atlas_revision) :
    createBuffer ctx params st1
      = (some { b with
            pass := if st1.current_pass ≠ kRenderPass then st1.current_pass
              else b.pass,
            ref_count := if params.ref_count_flag then b.ref_count + 1
              else b.ref_count },
         { st1 with
           create_calls := st1.create_calls + 1,
           map_buffers := mupdate params
             { b with
               pass := if st1.current_pass ≠ kRenderPass then st1.current_pass
                 else b.pass,
               ref_count := if params.ref_count_flag then b.ref_count + 1
                 else b.ref_count }
             (mupdate params
               { b with
                 pass := if st1.current_pass ≠ kRenderPass then
                   st1.current_pass else b.pass }
               st1.map_buffers) }) := by
  by_cases hcp : st1.current_pass ≠ kRenderPass <;>
    by_cases href : params.ref_count_flag <;>
      simp [createBuffer, hlook, updateUVm, ← hrev, hcp, href]

/-- C3: a second `GetBuffer` on a dedup hit with an unchanged atlas
revision returns the cached buffer itself (only its render pass is
refreshed and its reference count bumped), performs no relayout, and
increments `ref_count` by exactly one iff the parameters request
reference counting. -/
theorem claim_C3 (ctx : FmCtx) (params : FontBufferParameters)
    (st1 : FontManagerState) (b : FontBuffer)
    (hlook : mlookup params st1.map_buffers = some b)
    (hrev : b.revision = st1.current_atlas_revision) :
    (getBuffer ctx params st1).1
      = some { b with
          pass := if st1.current_pass ≠ kRenderPass then st1.current_pass
            else b.pass,
          ref_count := if params.ref_count_flag then b.ref_count + 1
            else b.ref_count } ∧
    (getBuffer ctx params st1).2.layout_calls = st1.layout_calls ∧
    (∀ bb, (getBuffer ctx params st1).1 = some bb →
      (bb.ref_count = b.ref_count + 1 ↔ params.ref_count_flag = true)) := by
  have hd := createBuffer_dedup ctx params st1 b hlook hrev
  refine ⟨?_, ?_, ?_⟩
  · simp only [getBuffer, hd]
  · simp only [getBuffer, hd]
  · intro bb hbb
    simp only [getBuffer, hd, Option.some.injEq] at hbb
    rw [← hbb]
    by_cases href : params.ref_count_flag
    · simp [href]
    · simp [href]

/-- Witness for C3 at the concrete ref-counted dedup scenario. -/
theorem claim_C3_witness :
    mlookup dedupParams dedupSt0.map_buffers = some relBuf ∧
    relBuf.revision = dedupSt0.current_atlas_revision ∧
    ((getBuffer ctxW dedupParams dedupSt0).1
      = some { relBuf with
          pass := if dedupSt0.current_pass ≠ kRenderPass then
            dedupSt0.current_pass else relBuf.pass,
          ref_count := if dedupParams.ref_count_flag then
            relBuf.ref_count + 1 else relBuf.ref_count } ∧
    (getBuffer ctxW dedupParams dedupSt0).2.layout_calls
      = dedupSt0.layout_calls ∧
    (∀ bb, (getBuffer ctxW dedupParams dedupSt0).1 = some bb →
      (bb.ref_count = relBuf.ref_count + 1 ↔
        dedupParams.ref_count_flag = true))) :=
  ⟨rfl, rfl, claim_C3 ctxW dedupParams dedupSt0 relBuf rfl rfl⟩

end Flatui
